import Mathlib

/-!
Verification of the `kat` admission-policy test runner
(`internal/evaluator/evaluator.go`) against its natural-language
specification.  Go's dynamic JSON-shaped data (`map[string]any`,
`[]any`, scalars) is embedded as the inductive type `Value`; Go maps
are embedded as association lists with map-style lookup and update
semantics.  CEL expression evaluation (the external `cel-go` library)
is a parameter of the embedded evaluator: expressions are opaque
strings, and an oracle of type `Eval` supplies the value or error each
expression produces under a given variable bag, exactly as
`Evaluator.evaluateExpression` would.
-/

namespace Kat

/-- Dynamic JSON-shaped data: the embedding of Go `any` values holding
`nil`, `bool`, numbers, `string`, `[]any` and `map[string]any`. -/
inductive Value where
  | null : Value
  | bool (b : Bool) : Value
  | num (n : Int) : Value
  | str (s : String) : Value
  | arr (elems : List Value) : Value
  | obj (fields : List (String × Value)) : Value
deriving Repr, Inhabited

/-- A Go `map[string]any` (e.g. `unstructured.Unstructured.Object`),
embedded as an association list with unique keys. -/
abbrev Obj := List (String × Value)

/-- Map lookup: the embedding of Go `v, ok := m[k]`. -/
def lookupKV {α : Type} : List (String × α) → String → Option α
  | [], _ => none
  | (k₁, v) :: rest, k => if k₁ = k then some v else lookupKV rest k

/-- Map assignment: the embedding of Go `m[k] = v` (replace the
binding if the key is present, otherwise add it). -/
def insertKV {α : Type} : List (String × α) → String → α → List (String × α)
  | [], k, v => [(k, v)]
  | (k₁, v₁) :: rest, k, v =>
      if k₁ = k then (k₁, v) :: rest else (k₁, v₁) :: insertKV rest k v

mutual

/-- The embedding of `mergeObjects` (evaluator.go:1196): for each key of
`src` in order, if both sides hold a `map[string]any`, merge
recursively; otherwise overwrite the destination entry with the source
value.  The in-place Go mutation of `dst` is rendered as pure
accumulation. -/
def mergeObjects : Obj → Obj → Obj
  | dst, [] => dst
  | dst, (k, srcVal) :: rest =>
      mergeObjects (insertKV dst k (mergeStep (lookupKV dst k) srcVal)) rest
termination_by dst src => sizeOf src

/-- One key of the merge: the body of the loop in `mergeObjects`
(evaluator.go:1197-1210).  `dstVal` is the existing binding, if any. -/
def mergeStep : Option Value → Value → Value
  | some (.obj dstMap), .obj srcMap => .obj (mergeObjects dstMap srcMap)
  | _, srcVal => srcVal
termination_by dstVal srcVal => sizeOf srcVal

end

/-- The embedding of `applyApplyConfigurations` (evaluator.go:1173) for
the configuration lists the engine passes it (evaluator.go:699):
deep-copy the working object and merge each configuration in. -/
def applyApplyConfigurations (configs : List Obj) (object : Obj) : Obj :=
  match configs with
  | [] => object
  | _ => configs.foldl (fun result config => mergeObjects result config) object

/-- Key containment: every key of `a` is bound in `b`. -/
def keysContained {α : Type} (a b : List (String × α)) : Bool :=
  a.all (fun kv => (lookupKV b kv.1).isSome)

mutual

/-- The embedding of `reflect.DeepEqual` on dynamic values
(evaluator.go:387): Go maps compare extensionally (no key order), Go
slices compare element by element in order. -/
def valueEq : Value → Value → Bool
  | .null, .null => true
  | .bool a, .bool b => a == b
  | .num a, .num b => a == b
  | .str a, .str b => a == b
  | .arr a, .arr b => listValueEq a b
  | .obj a, .obj b => objFieldsLe a b && keysContained b a
  | _, _ => false
termination_by a _ => sizeOf a

/-- Element-wise `DeepEqual` of two Go slices. -/
def listValueEq : List Value → List Value → Bool
  | [], [] => true
  | x :: xs, y :: ys => valueEq x y && listValueEq xs ys
  | _, _ => false
termination_by a _ => sizeOf a

/-- Each binding of the first map is present in the second with a
`DeepEqual` value. -/
def objFieldsLe : List (String × Value) → List (String × Value) → Bool
  | [], _ => true
  | (k, v) :: rest, b =>
      (match lookupKV b k with
       | some w => valueEq v w
       | none => false) && objFieldsLe rest b
termination_by a _ => sizeOf a

end

/-- `reflect.DeepEqual` on Go `map[string]string` values: extensional
equality of the two maps. -/
def strMapEq (a b : List (String × String)) : Bool :=
  a.all (fun kv => lookupKV b kv.1 == some kv.2) &&
    b.all (fun kv => lookupKV a kv.1 == some kv.2)

/-! ### CEL values, variables and the evaluation oracle -/

/-- The embedding of Go `strings.TrimSpace`: drop leading and trailing
whitespace.  (Go trims Unicode white space; the engine only ever tests
the result against the empty string, and ASCII whitespace is the
relevant case.) -/
def trimSpace (s : String) : String :=
  String.mk (((s.data.dropWhile Char.isWhitespace).reverse.dropWhile Char.isWhitespace).reverse)

/-- The Go `%T` rendering of the dynamic values the engine inspects,
used in the non-boolean error messages (evaluator.go:765,857). -/
def goTypeName : Value → String
  | .null => "<nil>"
  | .bool _ => "bool"
  | .num _ => "int64"
  | .str _ => "string"
  | .arr _ => "[]interface {}"
  | .obj _ => "map[string]interface {}"

/-- A mock-authorizer decision (`k8s.io/apiserver` `authorizer.Decision`). -/
inductive Decision where
  | allow : Decision
  | deny : Decision
  | noOpinion : Decision
deriving Repr, DecidableEq

/-- The decision table of `MockAuthorizer` (evaluator.go:3239): a Go map
from the slash-joined key built by `fmt.Sprintf("%s/%s/%s/%s/%s", ...)`
to the recorded decision. -/
abbrev MockAuthorizer := List (String × Decision)

/-- The user identity (`user.Info`) bound together with the authorizer. -/
structure UserInfo where
  name : String
  groups : List String
deriving Repr, DecidableEq

/-- A value bound in the CEL variable bag (`map[string]any` of
variables): `nil`, a nested mapping, or the wrapped authorizer value
produced by `NewAuthorizerValue` (evaluator.go:3230). -/
inductive VarVal where
  | null : VarVal
  | omap (m : Obj) : VarVal
  | authz (auth : MockAuthorizer) (u : UserInfo) : VarVal

/-- The CEL variable bag passed to `Program.Eval`. -/
abbrev Vars := List (String × VarVal)

/-- A raw CEL result (`ref.Val`) as returned by
`evaluateExpressionRaw`: either the `*dynamic.ObjectVal` produced by an
`Object{...}` construction, or any other value.  The payloads are kept in
native form; Go's unwrapping (`Value()` / `convertCELValue`) is then the
identity on the payload. -/
inductive RawVal where
  | objectVal (fields : List (String × Value)) : RawVal
  | plain (v : Value) : RawVal

/-- `Value()` on a raw CEL result (evaluator.go:896): an `ObjectVal`
unwraps to its native mapping. -/
def unwrapRaw : RawVal → Value
  | .objectVal fields => .obj fields
  | .plain v => v

/-- The CEL oracle: the behaviour of `Evaluator.evaluateExpressionRaw`
(compile + `Program.Eval` of the external cel-go library) on each
expression string under a variable bag.  A compile failure or runtime
error is an `Except.error` carrying the wrapped message. -/
abbrev Eval := String → Vars → Except String RawVal

/-- The embedding of `Evaluator.evaluateExpression` (evaluator.go:890):
evaluate raw, then unwrap to a native value. -/
def evaluateExpression (eval : Eval) (expression : String) (vars : Vars) : Except String Value :=
  (eval expression vars).map unwrapRaw

/-! ### Policies, bindings and requests -/

/-- A policy match condition (name + CEL boolean expression). -/
structure MatchCondition where
  name : String
  expression : String

/-- A VAP validation (`admissionregv1.Validation`); `reason` is carried
but never read by the engine. -/
structure Validation where
  expression : String
  message : String
  messageExpression : String
  reason : String := ""

/-- A VAP audit annotation (key + CEL value expression). -/
structure AuditAnnotation where
  key : String
  valueExpression : String

/-- A `metav1.LabelSelector` on namespaces.  Only `matchLabels` is
modelled: the repository's selector handling delegates to the external
apimachinery conversion, whose `matchLabels` part is a conjunction of
exact equality requirements; `matchExpressions` is not exercised by any
claim. -/
structure LabelSelector where
  matchLabels : List (String × String)

/-- The `spec.matchResources` block of a binding. -/
structure MatchResources where
  namespaceSelector : Option LabelSelector

/-- A `ValidatingAdmissionPolicy` spec as the engine reads it. -/
structure ValidatingPolicy where
  matchConditions : List MatchCondition
  validations : List Validation
  auditAnnotations : List AuditAnnotation

/-- A `ValidatingAdmissionPolicyBinding` spec as the engine reads it.
`validationActions` entries are the literal strings `"Deny"`, `"Warn"`,
`"Audit"` (Go `ValidationAction` is a string type). -/
structure ValidatingBinding where
  matchResources : Option MatchResources
  validationActions : List String

/-- A MAP mutation: a patch-type tag (a string in Go) and at most one
expression per variant (nil pointers embedded as `none`). -/
structure Mutation where
  patchType : String
  jsonPatch : Option String
  applyConfiguration : Option String

/-- A `MutatingAdmissionPolicy` spec as the engine reads it. -/
structure MutatingPolicy where
  matchConditions : List MatchCondition
  mutations : List Mutation

/-- A `MutatingAdmissionPolicyBinding` spec as the engine reads it. -/
structure MutatingBinding where
  matchResources : Option MatchResources

/-- The outcome record (`EvaluationResult`, evaluator.go:534).  The
unexercised `PatchType` field (never assigned in the source) is not
carried. -/
structure EvaluationResult where
  allowed : Bool
  message : String := ""
  warnings : List String := []
  patchedObject : Option Obj := none
  auditAnnotations : List (String × String) := []
deriving Repr

/-- `metav1.GroupVersionKind` of the request. -/
structure GroupVersionKind where
  group : String
  version : String
  kind : String

/-- `metav1.GroupVersionResource` of the request. -/
structure GroupVersionResource where
  group : String
  version : String
  resource : String

/-- `authenticationv1.UserInfo` carried inside the admission request. -/
structure RequestUserInfo where
  username : String := ""
  uid : String := ""
  groups : List String := []
  extra : List (String × List String) := []

/-- The raw bytes of `req.Options.Raw` seen through the external JSON /
YAML decoders: either they decode to a mapping or both decoders fail. -/
inductive RawOptions where
  | decodable (m : Obj) : RawOptions
  | undecodable : RawOptions

/-- `admissionv1.AdmissionRequest` restricted to the fields
`convertAdmissionRequest` reads. -/
structure AdmissionRequest where
  uid : String := ""
  kind : GroupVersionKind := ⟨"", "", ""⟩
  resource : GroupVersionResource := ⟨"", "", ""⟩
  subResource : String := ""
  name : String := ""
  ns : String := ""
  operation : String := ""
  userInfo : RequestUserInfo := {}
  options : Option RawOptions := none
  dryRun : Option Bool := none

/-- A conditional single-entry map fragment: the embedding of one
conditional `result[k] = v` assignment in `convertAdmissionRequest`.
All assigned keys are distinct string literals, so the built Go map
equals the concatenation of these fragments. -/
def optEntry (c : Prop) [Decidable c] (k : String) (v : Value) : Obj :=
  if c then [(k, v)] else []

/-- The embedding of `convertAdmissionRequest` (evaluator.go:922): the
field-by-field projection of the request into the CEL `request`
mapping.  A `nil` request yields the empty map; undecodable options
raw bytes are a fatal error. -/
def convertAdmissionRequest : Option AdmissionRequest → Except String Obj
  | none => .ok []
  | some req =>
      match (match req.options with
        | none => (pure [] : Except String Obj)
        | some (.decodable mm) => pure [("options", .obj mm)]
        | some .undecodable => .error "unmarshal options: decode failed") with
      | .error e => .error e
      | .ok opts =>
      let userInfoMap : Obj :=
        optEntry (req.userInfo.username ≠ "") "username" (.str req.userInfo.username) ++
        optEntry (req.userInfo.groups ≠ []) "groups" (.arr (req.userInfo.groups.map .str)) ++
        optEntry (req.userInfo.uid ≠ "") "uid" (.str req.userInfo.uid) ++
        optEntry (req.userInfo.extra ≠ []) "extra"
          (.obj (req.userInfo.extra.map (fun kv => (kv.1, .arr (kv.2.map .str)))))
      pure (optEntry (req.uid ≠ "") "uid" (.str req.uid) ++
        optEntry (req.subResource ≠ "") "subResource" (.str req.subResource) ++
        optEntry (req.name ≠ "") "name" (.str req.name) ++
        optEntry (req.ns ≠ "") "namespace" (.str req.ns) ++
        optEntry (req.operation ≠ "") "operation" (.str req.operation) ++
        optEntry (req.kind.kind ≠ "") "kind"
          (.obj [("group", .str req.kind.group), ("version", .str req.kind.version),
                 ("kind", .str req.kind.kind)]) ++
        optEntry (req.resource.resource ≠ "") "resource"
          (.obj [("group", .str req.resource.group), ("version", .str req.resource.version),
                 ("resource", .str req.resource.resource)]) ++
        optEntry (req.userInfo.username ≠ "" ∨ req.userInfo.groups ≠ []) "userInfo"
          (.obj userInfoMap) ++
        opts ++
        (match req.dryRun with
         | some b => [("dryRun", .bool b)]
         | none => []))

/-! ### Variable bags -/

/-- The embedding of `setupValidatingVars` (evaluator.go:473).  The Go
map literal plus conditional assignments use six distinct literal keys,
so the map is the concatenation of the fragments below. -/
def setupValidatingVars (requestMap : Obj) (object oldObject params namespaceObj : Option Obj)
    (auth : Option MockAuthorizer) (userInfo : Option UserInfo) : Vars :=
  [("request", VarVal.omap requestMap)] ++
  [("object",
    match object with
    | some o => VarVal.omap o
    | none =>
        match oldObject with
        | some o => VarVal.omap o
        | none => VarVal.null)] ++
  [("params", match params with | some p => VarVal.omap p | none => VarVal.null)] ++
  (match auth, userInfo with
   | some a, some u => [("authorizer", VarVal.authz a u)]
   | _, _ => []) ++
  (match oldObject with | some o => [("oldObject", VarVal.omap o)] | none => []) ++
  (match namespaceObj with | some o => [("namespaceObject", VarVal.omap o)] | none => [])

/-- The embedding of `getPrimaryObject` (evaluator.go:623). -/
def getPrimaryObject (object oldObject : Option Obj) : Option Obj :=
  match object with
  | some o => some o
  | none => oldObject

/-- The embedding of `prepareMutatingVars` (evaluator.go:633). -/
def prepareMutatingVars (requestMap : Obj) (primaryObject : Obj)
    (oldObject params namespaceObj : Option Obj)
    (auth : Option MockAuthorizer) (userInfo : Option UserInfo) : Vars :=
  [("object", VarVal.omap primaryObject), ("request", VarVal.omap requestMap)] ++
  [("params", match params with | some p => VarVal.omap p | none => VarVal.null)] ++
  (match auth, userInfo with
   | some a, some u => [("authorizer", VarVal.authz a u)]
   | _, _ => []) ++
  (match oldObject with | some o => [("oldObject", VarVal.omap o)] | none => []) ++
  (match namespaceObj with | some o => [("namespaceObject", VarVal.omap o)] | none => [])

/-! ### Namespace-selector gate -/

/-- `metadata.labels` of a namespace object, as `unstructured.GetLabels`
reads them (string-valued entries of the nested map; a non-string value
makes the external accessor return no labels). -/
def getLabels (o : Obj) : List (String × String) :=
  match lookupKV o "metadata" with
  | some (.obj meta) =>
      match lookupKV meta "labels" with
      | some (.obj ls) =>
          if ls.all (fun kv => match kv.2 with | .str _ => true | _ => false) then
            ls.filterMap (fun kv => match kv.2 with | .str s => some (kv.1, s) | _ => none)
          else []
      | _ => []
  | _ => []

/-- `labels.Selector.Empty()` after `LabelSelectorAsSelector`: no
requirements. -/
def selectorIsEmpty (sel : LabelSelector) : Bool :=
  sel.matchLabels.isEmpty

/-- `selector.Matches(nsLabels)` for a matchLabels-only selector: every
required label is present with the exact value. -/
def selectorMatches (sel : LabelSelector) (ls : List (String × String)) : Bool :=
  sel.matchLabels.all (fun kv => lookupKV ls kv.1 == some kv.2)

/-- The embedding of `matchesNamespaceSelector` (evaluator.go:781).  The
Go error return can only fire on selector parse failures, which a
matchLabels-only selector never produces, so the result is a plain
`Bool`. -/
def matchesNamespaceSelector (binding : Option ValidatingBinding)
    (namespaceObj : Option Obj) : Bool :=
  match binding with
  | none => true
  | some b =>
      match b.matchResources with
      | none => true
      | some mr =>
          match mr.namespaceSelector with
          | none => true
          | some sel =>
              if selectorIsEmpty sel then true
              else
                match namespaceObj with
                | none => true
                | some nso => selectorMatches sel (getLabels nso)

/-- The embedding of `matchesNamespaceSelectorV1Beta1`
(evaluator.go:815), the verbatim twin of `matchesNamespaceSelector` for
mutating bindings. -/
def matchesNamespaceSelectorV1Beta1 (binding : Option MutatingBinding)
    (namespaceObj : Option Obj) : Bool :=
  match binding with
  | none => true
  | some b =>
      match b.matchResources with
      | none => true
      | some mr =>
          match mr.namespaceSelector with
          | none => true
          | some sel =>
              if selectorIsEmpty sel then true
              else
                match namespaceObj with
                | none => true
                | some nso => selectorMatches sel (getLabels nso)

/-! ### Match conditions, audit annotations, validations -/

/-- The embedding of `evaluateMatchConditions` (evaluator.go:848):
conditions run in order; an evaluation error or non-boolean result is
fatal; the first `false` stops the loop with result `false`. -/
def evaluateMatchConditions (eval : Eval) (conditions : List MatchCondition)
    (vars : Vars) : Except String Bool :=
  match conditions with
  | [] => .ok true
  | c :: rest =>
      match evaluateExpression eval c.expression vars with
      | .error e => .error ("evaluate match condition \"" ++ c.name ++ "\": " ++ e)
      | .ok v =>
          match v with
          | .bool b =>
              if b then evaluateMatchConditions eval rest vars else .ok false
          | other =>
              .error ("match condition returned non-boolean: " ++ c.name ++
                " returned " ++ goTypeName other)

/-- The embedding of `evaluateMatchConditionsV1Beta1`
(evaluator.go:869), the verbatim twin for mutating policies. -/
def evaluateMatchConditionsV1Beta1 (eval : Eval) (conditions : List MatchCondition)
    (vars : Vars) : Except String Bool :=
  match conditions with
  | [] => .ok true
  | c :: rest =>
      match evaluateExpression eval c.expression vars with
      | .error e => .error ("evaluate match condition \"" ++ c.name ++ "\": " ++ e)
      | .ok v =>
          match v with
          | .bool b =>
              if b then evaluateMatchConditionsV1Beta1 eval rest vars else .ok false
          | other =>
              .error ("match condition returned non-boolean: " ++ c.name ++
                " returned " ++ goTypeName other)

/-- The recording step of the `evaluateAuditAnnotations` loop
(evaluator.go:524-527): a non-empty string result is stored under the
annotation key; empty strings and non-strings leave the map unchanged. -/
def auditStep (acc : List (String × String)) (key : String) (v : Value) :
    List (String × String) :=
  match v with
  | .str s => if s ≠ "" then insertKV acc key s else acc
  | _ => acc

/-- The loop of `evaluateAuditAnnotations` (evaluator.go:516) with
its accumulated map made explicit. -/
def evaluateAuditAnnotationsAux (eval : Eval) (acc : List (String × String))
    (annotations : List AuditAnnotation) (vars : Vars) :
    Except String (List (String × String)) :=
  match annotations with
  | [] => .ok acc
  | a :: rest =>
      match evaluateExpression eval a.valueExpression vars with
      | .error e => .error ("evaluate audit annotation \"" ++ a.key ++ "\": " ++ e)
      | .ok v => evaluateAuditAnnotationsAux eval (auditStep acc a.key v) rest vars

/-- The embedding of `evaluateAuditAnnotations` (evaluator.go:516):
evaluate every value expression in order; record non-empty string
results under the annotation key; drop empty strings and non-strings. -/
def evaluateAuditAnnotations (eval : Eval) (annotations : List AuditAnnotation)
    (vars : Vars) : Except String (List (String × String)) :=
  evaluateAuditAnnotationsAux eval [] annotations vars

/-- The embedding of `getValidationAction` (evaluator.go:464): the empty
string when the binding is absent or lists no actions, otherwise the
first listed action. -/
def getValidationAction (binding : Option ValidatingBinding) : String :=
  match binding with
  | none => ""
  | some b =>
      match b.validationActions with
      | [] => ""
      | a :: _ => a

/-- The embedding of `handleValidationFailure` (evaluator.go:419):
compute the failure message (messageExpression result when it is a
non-blank string, else the static message, else the synthetic string),
then route by the binding's first validation action.  `strings.TrimSpace`
is `trimSpace`. -/
def handleValidationFailure (eval : Eval) (validation : Validation)
    (binding : Option ValidatingBinding) (auditAnnotations : List (String × String))
    (vars : Vars) : Except String EvaluationResult := do
  let message ←
    if validation.messageExpression = "" then
      pure validation.message
    else
      match evaluateExpression eval validation.messageExpression vars with
      | .error e =>
          .error ("evaluate messageExpression \"" ++ validation.messageExpression ++ "\": " ++ e)
      | .ok msgResult =>
          pure (match msgResult with
            | .str s => if trimSpace s ≠ "" then s else validation.message
            | _ => validation.message)
  let message := if message = "" then "validation failed: " ++ validation.expression else message
  match getValidationAction binding with
  | "Warn" =>
      pure { allowed := true, warnings := [message], auditAnnotations := auditAnnotations }
  | "Audit" =>
      pure { allowed := true, auditAnnotations := auditAnnotations }
  | _ =>
      pure { allowed := false, message := message, auditAnnotations := auditAnnotations }

/-- The validation loop of `EvaluateValidating` (evaluator.go:756): each
expression in order; an error or non-boolean is fatal; the first
`false` routes through `handleValidationFailure`; all passing yields
allowed with the annotations. -/
def evaluateValidationsLoop (eval : Eval) (validations : List Validation)
    (binding : Option ValidatingBinding) (auditAnnotations : List (String × String))
    (vars : Vars) : Except String EvaluationResult :=
  match validations with
  | [] => .ok { allowed := true, auditAnnotations := auditAnnotations }
  | v :: rest =>
      match evaluateExpression eval v.expression vars with
      | .error e => .error ("evaluate validation expression \"" ++ v.expression ++ "\": " ++ e)
      | .ok result =>
          match result with
          | .bool b =>
              if b then evaluateValidationsLoop eval rest binding auditAnnotations vars
              else handleValidationFailure eval v binding auditAnnotations vars
          | other =>
              .error ("validation expression returned non-boolean: " ++ v.expression ++
                " returned " ++ goTypeName other)

/-- The embedding of `EvaluateValidating` (evaluator.go:710): namespace
selector gate, request projection, variable bag, match-condition gate,
audit annotations, validations. -/
def EvaluateValidating (eval : Eval) (policy : ValidatingPolicy)
    (binding : Option ValidatingBinding) (request : Option AdmissionRequest)
    (object oldObject params namespaceObj : Option Obj)
    (auth : Option MockAuthorizer) (userInfo : Option UserInfo) :
    Except String EvaluationResult :=
  if !(matchesNamespaceSelector binding namespaceObj) then
    .ok { allowed := true }
  else
    match convertAdmissionRequest request with
    | .error e => .error ("convert admission request: " ++ e)
    | .ok requestMap =>
        let vars := setupValidatingVars requestMap object oldObject params namespaceObj auth userInfo
        match evaluateMatchConditions eval policy.matchConditions vars with
        | .error e => .error ("evaluate match conditions: " ++ e)
        | .ok matched =>
            if !matched then .ok { allowed := true }
            else
              match evaluateAuditAnnotations eval policy.auditAnnotations vars with
              | .error e => .error e
              | .ok auditAnnotations =>
                  evaluateValidationsLoop eval policy.validations binding auditAnnotations vars

/-! ### Mutation engine -/

/-- The external RFC-6902 patch pipeline as an oracle: the behaviour of
`buildJSONPatchOperation` + `jsonpatch.Patch.Apply` + the JSON
round-trip (evaluator.go:1104-1170) on a non-empty list of patch
elements applied to an object. -/
abbrev PatchEngine := List Value → Obj → Except String Obj

/-- The embedding of `evaluateJSONPatchMutation` (evaluator.go:1010): a
`nil` JSONPatch block contributes nothing; otherwise the expression's
value is the patch. -/
def evaluateJSONPatchMutation (eval : Eval) (mutation : Mutation) (vars : Vars) :
    Except String (Option Value) :=
  match mutation.jsonPatch with
  | none => .ok none
  | some expr =>
      match evaluateExpression eval expr vars with
      | .error e => .error ("evaluate JSONPatch expression: " ++ e)
      | .ok v => .ok (some v)

/-- The embedding of `evaluateApplyConfigurationMutation`
(evaluator.go:1028): the raw CEL result must be the `ObjectVal` of an
`Object{...}` construction; `convertCELValue` then yields its native
mapping (the identity here, since oracle payloads are already native). -/
def evaluateApplyConfigurationMutation (eval : Eval) (mutation : Mutation) (vars : Vars) :
    Except String (Option Obj) :=
  match mutation.applyConfiguration with
  | none => .ok none
  | some expr =>
      match eval expr vars with
      | .error e => .error ("evaluate ApplyConfiguration expression: " ++ e)
      | .ok raw =>
          match raw with
          | .objectVal fields => .ok (some fields)
          | .plain v => .error ("apply configuration must return Object: " ++ goTypeName v)

/-- The embedding of `applyJSONPatches` (evaluator.go:1064) on the
one-element patch list `applyMutations` passes it: non-list patch
values are skipped (`listerFromPatch`), an empty operation list leaves
a deep copy of the object, otherwise the external engine applies the
collected operations.  A `nil` working object (only reachable when
both request objects were absent) dereferences a nil pointer in Go;
that panic is rendered as an error value. -/
def applyJSONPatches (patchApply : PatchEngine) (patches : List Value)
    (object : Option Obj) : Except String (Option Obj) :=
  let ops := (patches.filterMap (fun p => match p with | .arr elems => some elems | _ => none)).flatten
  if ops.isEmpty then .ok object
  else
    match object with
    | none => .error "panic: runtime error: invalid memory address or nil pointer dereference"
    | some o => (patchApply ops o).map some

/-- The mutation loop of `applyMutations` (evaluator.go:676-704). -/
def applyMutationsLoop (eval : Eval) (patchApply : PatchEngine) :
    List Mutation → Option Obj → Vars → Except String (Option Obj)
  | [], patched, _ => .ok patched
  | m :: rest, patched, vars =>
      if m.patchType = "JSONPatch" then
        match evaluateJSONPatchMutation eval m vars with
        | .error e => .error e
        | .ok none => applyMutationsLoop eval patchApply rest patched vars
        | .ok (some patch) =>
            match applyJSONPatches patchApply [patch] patched with
            | .error e => .error e
            | .ok patched₁ => applyMutationsLoop eval patchApply rest patched₁ vars
      else if m.patchType = "ApplyConfiguration" then
        match evaluateApplyConfigurationMutation eval m vars with
        | .error e => .error e
        | .ok none => applyMutationsLoop eval patchApply rest patched vars
        | .ok (some config) =>
            match patched with
            | none => .error "panic: runtime error: invalid memory address or nil pointer dereference"
            | some p =>
                applyMutationsLoop eval patchApply rest
                  (some (applyApplyConfigurations [config] p)) vars
      else .error ("unsupported patch type: " ++ m.patchType)

/-- The embedding of `applyMutations` (evaluator.go:669): deep-copy the
input object (the pure model copies by value), then apply each mutation
in declared order. -/
def applyMutations (eval : Eval) (patchApply : PatchEngine) (mutations : List Mutation)
    (object : Option Obj) (vars : Vars) : Except String (Option Obj) :=
  applyMutationsLoop eval patchApply mutations object vars

/-- The embedding of `EvaluateMutating` (evaluator.go:572): namespace
selector gate, request projection, primary-object check, variable bag,
match-condition gate, mutations. -/
def EvaluateMutating (eval : Eval) (patchApply : PatchEngine) (policy : MutatingPolicy)
    (binding : Option MutatingBinding) (request : Option AdmissionRequest)
    (object oldObject params namespaceObj : Option Obj)
    (auth : Option MockAuthorizer) (userInfo : Option UserInfo) :
    Except String EvaluationResult :=
  if !(matchesNamespaceSelectorV1Beta1 binding namespaceObj) then
    .ok { allowed := true }
  else
    match convertAdmissionRequest request with
    | .error e => .error ("convert admission request: " ++ e)
    | .ok requestMap =>
        match getPrimaryObject object oldObject with
        | none => .error "mutating policy requires object or oldObject"
        | some primaryObject =>
            let vars := prepareMutatingVars requestMap primaryObject oldObject params
              namespaceObj auth userInfo
            match evaluateMatchConditionsV1Beta1 eval policy.matchConditions vars with
            | .error e => .error ("evaluate match conditions: " ++ e)
            | .ok matched =>
                if !matched then .ok { allowed := true }
                else
                  match applyMutations eval patchApply policy.mutations object vars with
                  | .error e => .error e
                  | .ok patchedObject => .ok { allowed := true, patchedObject := patchedObject }

/-! ### Mock authorizer -/

/-- The slash-joined lookup key of the mock decision table
(`fmt.Sprintf("%s/%s/%s/%s/%s", ...)`, evaluator.go:3271,3294). -/
def mockKey (group resource subresource ns verb : String) : String :=
  group ++ "/" ++ resource ++ "/" ++ subresource ++ "/" ++ ns ++ "/" ++ verb

/-- One mocked authorization record (`AuthorizationMockConfig`,
evaluator.go:3244). -/
structure AuthorizationMockConfig where
  group : String := ""
  resource : String
  subresource : String := ""
  ns : String := ""
  verb : String
  decision : String
deriving Repr, DecidableEq

/-- The embedding of `MockAuthorizer.Add` (evaluator.go:3270):
`"allow"` records an allow decision, anything else records deny. -/
def mockAdd (m : MockAuthorizer) (c : AuthorizationMockConfig) : MockAuthorizer :=
  insertKV m (mockKey c.group c.resource c.subresource c.ns c.verb)
    (if c.decision = "allow" then Decision.allow else Decision.deny)

/-- The embedding of `NewMockAuthorizerFromConfig` (evaluator.go:3261). -/
def newMockAuthorizerFromConfig (configs : List AuthorizationMockConfig) : MockAuthorizer :=
  configs.foldl mockAdd []

/-- The attribute tuple of an authorization check
(`authorizer.Attributes` as `Authorize` reads it). -/
structure Attributes where
  apiGroup : String := ""
  resource : String := ""
  subresource : String := ""
  ns : String := ""
  verb : String := ""
deriving Repr, DecidableEq

/-- The embedding of `MockAuthorizer.Authorize` (evaluator.go:3292):
look up the slash-joined key; a hit returns the recorded decision with
reason `"mock decision"`, a miss returns no-opinion. -/
def mockAuthorize (m : MockAuthorizer) (attrs : Attributes) : Decision × String :=
  match lookupKV m (mockKey attrs.apiGroup attrs.resource attrs.subresource attrs.ns attrs.verb) with
  | some d => (d, "mock decision")
  | none => (Decision.noOpinion, "no opinion")

/-! ### Test oracle -/

/-- What the test expects (`TestExpectation`, evaluator.go:553). -/
structure TestExpectation where
  allowed : Bool
  message : String := ""
  object : Option Obj := none
  warnings : List String := []
  auditAnnotations : List (String × String) := []

/-- What actually happened (`TestOutcome`, evaluator.go:562, without
the unread `EvaluationErr` field). -/
structure TestOutcome where
  allowed : Bool
  message : String := ""
  object : Option Obj := none
  warnings : List String := []
  auditAnnotations : List (String × String) := []

/-- The verdict (`TestResult`) restricted to the fields the oracle
computes; the `Expected` / `Actual` / `PatchedObject` pass-through
fields carry no verdict information. -/
structure TestResult where
  passed : Bool
  message : String := ""
deriving Repr, DecidableEq

/-- The Go `%v` rendering of a bool. -/
def goBool (b : Bool) : String :=
  if b then "true" else "false"

/-- The Go `%q` rendering of a string, without escapes (no claim
constrains escaped content). -/
def goQuote (s : String) : String :=
  "\x22" ++ s ++ "\x22"

/-- The Go `%v` rendering of a string slice. -/
def goStrSlice (xs : List String) : String :=
  "[" ++ String.intercalate " " xs ++ "]"

/-- The unified diff of `getDiff` (evaluator.go:227), abstracting the
external difflib renderer: it is empty exactly on equal inputs, and
otherwise opens with the `Expected` / `Actual` labels. -/
def getDiff (expected actual : String) : String :=
  if expected = actual then ""
  else "--- Expected\n+++ Actual\n-" ++ expected ++ "\n+" ++ actual ++ "\n"

/-- A deterministic rendering of a string map, abstracting
`yaml.Marshal` in the audit-annotation diff. -/
def renderStrMap (m : List (String × String)) : String :=
  String.intercalate "\n" (m.map (fun kv => kv.1 ++ ": " ++ kv.2))

/-- A deterministic rendering of an object, abstracting `yaml.Marshal`
in the mutated-object diff. -/
def renderObj (o : Obj) : String :=
  toString (repr (Value.obj o))

/-- The index loop of `checkWarnings` (evaluator.go:304). -/
def checkWarningsLoop : Nat → List String → List String → Option TestResult
  | _, [], _ => none
  | i, e :: es, a :: as_ =>
      if a = e then checkWarningsLoop (i + 1) es as_
      else
        let diff := getDiff e a
        if diff ≠ "" then
          some { passed := false,
                 message := "warning[" ++ toString i ++ "] does not match expected:\n" ++ diff }
        else
          some { passed := false,
                 message := "warning[" ++ toString i ++ "]: expected " ++ goQuote e ++
                   ", got " ++ goQuote a }
  | _, _ :: _, [] => none

/-- The embedding of `checkWarnings` (evaluator.go:285): nothing to
check when no warnings are expected; otherwise lengths must agree and
each warning must match in order; `none` means the check passed. -/
def checkWarnings (expected actual : List String) : Option TestResult :=
  if expected.length = 0 then none
  else if actual.length = 0 then
    some { passed := false, message := "expected warnings " ++ goStrSlice expected ++ ", got none" }
  else if actual.length ≠ expected.length then
    some { passed := false,
           message := "expected " ++ toString expected.length ++ " warnings, got " ++
             toString actual.length }
  else checkWarningsLoop 0 expected actual

/-- The filtering loop of `checkAuditAnnotations` (evaluator.go:336):
keep the actual value of every expected key that is present. -/
def filterToExpectedKeys (expected actual : List (String × String)) :
    List (String × String) :=
  expected.foldl
    (fun acc kv =>
      match lookupKV actual kv.1 with
      | some v => insertKV acc kv.1 v
      | none => acc) []

/-- The embedding of `checkAuditAnnotations` (evaluator.go:326): skip
when nothing is expected; otherwise the expected map must `DeepEqual`
the actual map filtered to the expected keys. -/
def checkAuditAnnotations (expected : TestExpectation) (actual : TestOutcome) :
    Option TestResult :=
  if expected.auditAnnotations.length = 0 then none
  else
    let actualFiltered := filterToExpectedKeys expected.auditAnnotations actual.auditAnnotations
    if strMapEq expected.auditAnnotations actualFiltered then none
    else
      let diff := getDiff (renderStrMap expected.auditAnnotations) (renderStrMap actualFiltered)
      let diff :=
        if diff = "" then
          "Expected:\n" ++ renderStrMap expected.auditAnnotations ++ "\nActual:\n" ++
            renderStrMap actualFiltered
        else diff
      some { passed := false, message := "audit annotations do not match expected:\n" ++ diff }

/-- The embedding of `checkMutatedObject` (evaluator.go:372): skip when
no object is expected; otherwise the actual object must exist and
`DeepEqual` the expected one. -/
def checkMutatedObject (expected : TestExpectation) (actual : TestOutcome) :
    Option TestResult :=
  match expected.object with
  | none => none
  | some eo =>
      match actual.object with
      | none => some { passed := false, message := "expected mutated object, got none" }
      | some ao =>
          if valueEq (.obj eo) (.obj ao) then none
          else
            let diff := getDiff (renderObj eo) (renderObj ao)
            let diff :=
              if diff = "" then "Expected:\n" ++ renderObj eo ++ "\nActual:\n" ++ renderObj ao
              else diff
            some { passed := false, message := "mutated object does not match expected:\n" ++ diff }

/-- The embedding of `validateTestResult` (evaluator.go:182): the five
checks in their fixed order with early return on the first failure. -/
def validateTestResult (expected : TestExpectation) (actual : TestOutcome) : TestResult :=
  if actual.allowed ≠ expected.allowed then
    { passed := false,
      message := "expected allowed=" ++ goBool expected.allowed ++ ", got allowed=" ++
        goBool actual.allowed }
  else
    match checkAuditAnnotations expected actual with
    | some chk => chk
    | none =>
        match checkWarnings expected.warnings actual.warnings with
        | some chk => { passed := false, message := chk.message }
        | none =>
            if expected.message ≠ "" ∧ actual.message ≠ expected.message then
              let diff := getDiff expected.message actual.message
              if diff ≠ "" then
                { passed := false, message := "message does not match expected:\n" ++ diff }
              else
                { passed := false,
                  message := "expected message " ++ goQuote expected.message ++ ", got " ++
                    goQuote actual.message }
            else
              match checkMutatedObject expected actual with
              | some chk => chk
              | none => { passed := true }

/-! ### EvaluateTest -/

/-- A loaded test case: the slice of the loader's `TestCase` interface
that `EvaluateTest` reads (evaluator.go:99). -/
structure TestCase where
  request : Option AdmissionRequest := none
  object : Option Obj := none
  oldObject : Option Obj := none
  params : Option Obj := none
  namespaceObj : Option Obj := none
  userInfo : Option UserInfo := none
  expectAllowed : Bool := true
  expectMessage : String := ""
  expectWarnings : List String := []
  expectAuditAnnotations : List (String × String) := []
  expectedObject : Option Obj := none
  loadError : Option String := none
  authorizer : List AuthorizationMockConfig := []

/-- The embedding of `evaluatePolicy` (evaluator.go:240): build the
mock authorizer when configured, then dispatch on the policy variant;
no policy at all is the `errNoPolicy` error. -/
def evaluatePolicy (eval : Eval) (patchApply : PatchEngine)
    (mutatingPolicy : Option MutatingPolicy) (mutatingBinding : Option MutatingBinding)
    (validatingPolicy : Option ValidatingPolicy) (validatingBinding : Option ValidatingBinding)
    (tc : TestCase) : Except String EvaluationResult :=
  let auth : Option MockAuthorizer :=
    if tc.authorizer.length > 0 then some (newMockAuthorizerFromConfig tc.authorizer) else none
  match mutatingPolicy with
  | some mp =>
      EvaluateMutating eval patchApply mp mutatingBinding tc.request tc.object tc.oldObject
        tc.params tc.namespaceObj auth tc.userInfo
  | none =>
      match validatingPolicy with
      | some vp =>
          EvaluateValidating eval vp validatingBinding tc.request tc.object tc.oldObject
            tc.params tc.namespaceObj auth tc.userInfo
      | none => .error "no policy provided"

/-- The embedding of `EvaluateTest` (evaluator.go:116): loading errors
fail the test up front; a fatal evaluator error fails it with the
`"evaluation error: "` prefix; otherwise the outcome is compared to the
expectation.  (The Go `evalResult == nil` arm is unreachable: every
error-free engine path returns a result.) -/
def EvaluateTest (eval : Eval) (patchApply : PatchEngine)
    (mutatingPolicy : Option MutatingPolicy) (mutatingBinding : Option MutatingBinding)
    (validatingPolicy : Option ValidatingPolicy) (validatingBinding : Option ValidatingBinding)
    (tc : TestCase) : TestResult :=
  match tc.loadError with
  | some err => { passed := false, message := "test loading error: " ++ err }
  | none =>
      match evaluatePolicy eval patchApply mutatingPolicy mutatingBinding validatingPolicy
        validatingBinding tc with
      | .error e => { passed := false, message := "evaluation error: " ++ e }
      | .ok evalResult =>
          let actual : TestOutcome :=
            { allowed := evalResult.allowed
              message := evalResult.message
              warnings := evalResult.warnings
              auditAnnotations := evalResult.auditAnnotations
              object :=
                match evalResult.patchedObject with
                | some po => some po
                | none => tc.object }
          let expected : TestExpectation :=
            { allowed := tc.expectAllowed
              message := tc.expectMessage
              object := tc.expectedObject
              warnings := tc.expectWarnings
              auditAnnotations := tc.expectAuditAnnotations }
          validateTestResult expected actual

/-! ### Heap-level view of the mutation engine

Input immutability (spec §8 I3) is a statement about Go's reference
semantics, so the mutation engine is additionally rendered over an
explicit store: `unstructured` objects live at addresses, `DeepCopy`
allocates, the ApplyConfiguration merge writes in place at the address
of the copy, and JSONPatch application allocates the freshly
unmarshalled object.  The pure model above is this one with the store
forgotten. -/

/-- An object address in the store. -/
abbrev Addr := Nat

/-- The store of allocated `unstructured` objects. -/
abbrev Store := List Obj

/-- Allocate a fresh object, returning its address. -/
def heapAlloc (s : Store) (v : Obj) : Store × Addr :=
  (s ++ [v], s.length)

/-- Read the object at an address. -/
def heapRead (s : Store) (a : Addr) : Obj :=
  s.getD a []

/-- Overwrite the object at an address (in-place mutation). -/
def heapWrite (s : Store) (a : Addr) (v : Obj) : Store :=
  s.set a v

/-- The loop of `applyMutations` over the store.  Each step reads the
current working object, and every write or allocation targets a fresh
address: `applyJSONPatches` deep-copies on an empty operation list
(evaluator.go:1069,1086) or allocates the unmarshalled patched object
(evaluator.go:1164); `applyApplyConfigurations` deep-copies and then
merges in place into the copy (evaluator.go:1182-1187). -/
def applyMutationsHeapLoop (eval : Eval) (patchApply : PatchEngine) (vars : Vars) :
    List Mutation → Store → Addr → Store × Except String Addr
  | [], s, cur => (s, .ok cur)
  | m :: rest, s, cur =>
      if m.patchType = "JSONPatch" then
        match evaluateJSONPatchMutation eval m vars with
        | .error e => (s, .error e)
        | .ok none => applyMutationsHeapLoop eval patchApply vars rest s cur
        | .ok (some patch) =>
            let ops := ([patch].filterMap
              (fun p => match p with | .arr elems => some elems | _ => none)).flatten
            if ops.isEmpty then
              let (s₁, a₁) := heapAlloc s (heapRead s cur)
              applyMutationsHeapLoop eval patchApply vars rest s₁ a₁
            else
              match patchApply ops (heapRead s cur) with
              | .error e => (s, .error e)
              | .ok patched =>
                  let (s₁, a₁) := heapAlloc s patched
                  applyMutationsHeapLoop eval patchApply vars rest s₁ a₁
      else if m.patchType = "ApplyConfiguration" then
        match evaluateApplyConfigurationMutation eval m vars with
        | .error e => (s, .error e)
        | .ok none => applyMutationsHeapLoop eval patchApply vars rest s cur
        | .ok (some config) =>
            let (s₁, a₁) := heapAlloc s (heapRead s cur)
            let s₂ := heapWrite s₁ a₁ (mergeObjects (heapRead s₁ a₁) config)
            applyMutationsHeapLoop eval patchApply vars rest s₂ a₁
      else (s, .error ("unsupported patch type: " ++ m.patchType))

/-- `applyMutations` (evaluator.go:669) over the store: deep-copy the
input object at `objAddr` into a fresh cell, then run the mutation loop
on the copy. -/
def applyMutationsHeap (eval : Eval) (patchApply : PatchEngine) (mutations : List Mutation)
    (vars : Vars) (s : Store) (objAddr : Addr) : Store × Except String Addr :=
  let (s₁, copyAddr) := heapAlloc s (heapRead s objAddr)
  applyMutationsHeapLoop eval patchApply vars mutations s₁ copyAddr

/-! ### Spec-side definitions

For the refinement claims, a second set of definitions follows the
wording of the specification (spec.md §4.F, §4.G) rather than the Go
control flow; the claim theorems compare the two. -/

/-- Following the spec's words (§4.F failure routing): the failure
message is the `messageExpression` value when that expression is
provided and evaluates to a non-blank string, otherwise the static
`message`, otherwise `"validation failed: <expression>"`. -/
def specFailureMessage (eval : Eval) (validation : Validation) (vars : Vars) : String :=
  let fromExpr : Option String :=
    if validation.messageExpression = "" then none
    else
      match evaluateExpression eval validation.messageExpression vars with
      | .ok (.str s) => if trimSpace s = "" then none else some s
      | _ => none
  match fromExpr with
  | some s => s
  | none =>
      if validation.message = "" then "validation failed: " ++ validation.expression
      else validation.message

/-- Following the spec's words (§4.G rule 2): for every expected audit
annotation key, the actual annotations contain that key with the
identical value; extra actual keys are ignored. -/
def specAuditOK (expected actual : List (String × String)) : Prop :=
  ∀ k v, lookupKV expected k = some v → lookupKV actual k = some v

/-- Following the spec's words (§4.G rule 3): expected warnings, when
non-empty, equal the actual warnings in length, order and content. -/
def specWarningsOK (expected actual : List String) : Prop :=
  expected = [] ∨ actual = expected

/-- Following the spec's words (§4.G rule 4): a non-empty expected
message must equal the actual message exactly. -/
def specMessageOK (expected actual : String) : Prop :=
  expected = "" ∨ actual = expected

/-- Following the spec's words (§4.G rule 5): a provided expected
object must be deep-equal to the actual object. -/
def specObjectOK (expected actual : Option Obj) : Prop :=
  match expected with
  | none => True
  | some eo =>
      match actual with
      | none => False
      | some ao => valueEq (.obj eo) (.obj ao) = true

/-! ## Theorems -/

/-! ### Association-list map lemmas -/

theorem lookupKV_insertKV {α : Type} (m : List (String × α)) (k v k₀) :
    lookupKV (insertKV m k v) k₀ = if k = k₀ then some v else lookupKV m k₀ := by
  induction m with
  | nil =>
      by_cases h : k = k₀ <;> simp [insertKV, lookupKV, h]
  | cons hd tl ih =>
      obtain ⟨k₁, v₁⟩ := hd
      by_cases h₁ : k₁ = k
      · subst h₁
        by_cases h : k₁ = k₀ <;> simp [insertKV, lookupKV, h]
      · by_cases h : k = k₀
        · subst h
          simp [insertKV, lookupKV, h₁, ih]
        · by_cases h₂ : k₁ = k₀
          · subst h₂
            simp [insertKV, lookupKV, h₁, h]
          · simp [insertKV, lookupKV, h₁, h₂, ih, h]

theorem lookupKV_insertKV_self {α : Type} (m : List (String × α)) (k : String) (v : α) :
    lookupKV (insertKV m k v) k = some v := by
  simp [lookupKV_insertKV]

theorem lookupKV_insertKV_ne {α : Type} (m : List (String × α)) (k k₀ : String) (v : α)
    (h : k ≠ k₀) : lookupKV (insertKV m k v) k₀ = lookupKV m k₀ := by
  simp [lookupKV_insertKV, h]

theorem lookupKV_eq_none_of_not_mem {α : Type} (m : List (String × α)) (k : String)
    (h : k ∉ m.map Prod.fst) : lookupKV m k = none := by
  induction m with
  | nil => simp [lookupKV]
  | cons hd tl ih =>
      obtain ⟨k₁, v₁⟩ := hd
      simp only [List.map_cons, List.mem_cons, not_or] at h
      obtain ⟨h₁, h₂⟩ := h
      rw [lookupKV, if_neg (fun hh => h₁ hh.symm)]
      exact ih h₂

theorem lookupKV_append {α : Type} (xs ys : List (String × α)) (k : String) :
    lookupKV (xs ++ ys) k =
      match lookupKV xs k with
      | some v => some v
      | none => lookupKV ys k := by
  induction xs with
  | nil => simp [lookupKV]
  | cons hd tl ih =>
      obtain ⟨k₁, v₁⟩ := hd
      by_cases h : k₁ = k <;> simp [lookupKV, h, ih]

theorem lookupKV_optEntry (c : Prop) [Decidable c] (k : String) (v : Value) (k₀ : String) :
    lookupKV (optEntry c k v) k₀ = if c ∧ k = k₀ then some v else none := by
  by_cases hc : c <;> by_cases hk : k = k₀ <;> simp [optEntry, lookupKV, hc, hk]

/-! ### The ApplyConfiguration merge (C3) -/

theorem mergeStep_eq (o : Option Value) (v : Value) :
    mergeStep o v =
      match o, v with
      | some (.obj dstMap), .obj srcMap => .obj (mergeObjects dstMap srcMap)
      | _, _ => v := by
  match o, v with
  | none, v => cases v <;> simp [mergeStep]
  | some w, v => cases w <;> cases v <;> simp [mergeStep]

theorem mergeObjects_lookup (src : Obj) :
    ∀ (dst : Obj) (k : String), (src.map Prod.fst).Nodup →
      lookupKV (mergeObjects dst src) k =
        match lookupKV src k, lookupKV dst k with
        | none, dv => dv
        | some sv, dv => some (mergeStep dv sv) := by
  induction src with
  | nil =>
      intro dst k _
      simp [mergeObjects, lookupKV]
  | cons hd rest ih =>
      intro dst k h
      obtain ⟨k₁, sv⟩ := hd
      simp only [List.map_cons, List.nodup_cons] at h
      obtain ⟨hnot, hrest⟩ := h
      rw [mergeObjects, ih (insertKV dst k₁ (mergeStep (lookupKV dst k₁) sv)) k hrest]
      by_cases hk : k₁ = k
      · subst hk
        rw [lookupKV_eq_none_of_not_mem rest k₁ hnot, lookupKV_insertKV_self]
        simp [lookupKV]
      · rw [lookupKV_insertKV_ne dst k₁ k _ hk]
        simp [lookupKV, hk]

/-- **C3** — An ApplyConfiguration value is merged into the working
object key by key: for each key of the configuration, when both sides
hold mappings the merge recurses into them, and in every other case
(sequences, scalars, mismatched types) the configuration's value
overwrites the working object's value; in particular sequences are
replaced whole, never merged element-wise. -/
theorem applyConfiguration_merges_by_key (object config : Obj)
    (hconfig : (config.map Prod.fst).Nodup) :
    (∀ k, lookupKV (applyApplyConfigurations [config] object) k =
      match lookupKV config k, lookupKV object k with
      | none, dv => dv
      | some (.obj srcMap), some (.obj dstMap) => some (.obj (mergeObjects dstMap srcMap))
      | some sv, _ => some sv) ∧
    (∀ k xs ys, lookupKV object k = some (.arr xs) → lookupKV config k = some (.arr ys) →
      lookupKV (applyApplyConfigurations [config] object) k = some (.arr ys)) := by
  have happ : applyApplyConfigurations [config] object = mergeObjects object config := by
    simp [applyApplyConfigurations]
  have hmain : ∀ k, lookupKV (applyApplyConfigurations [config] object) k =
      match lookupKV config k, lookupKV object k with
      | none, dv => dv
      | some (.obj srcMap), some (.obj dstMap) => some (.obj (mergeObjects dstMap srcMap))
      | some sv, _ => some sv := by
    intro k
    rw [happ, mergeObjects_lookup config object k hconfig]
    cases hc : lookupKV config k with
    | none => rfl
    | some sv =>
        cases ho : lookupKV object k with
        | none =>
            show some (mergeStep none sv) = _
            rw [mergeStep_eq]
            cases sv <;> rfl
        | some dv =>
            show some (mergeStep (some dv) sv) = _
            rw [mergeStep_eq]
            cases sv <;> cases dv <;> rfl
  refine ⟨hmain, ?_⟩
  intro k xs ys hobj hconf
  rw [hmain k, hobj, hconf]

theorem applyConfiguration_merges_by_key_witness :
    ((([("b", Value.obj [("y", Value.num 3)]), ("c", Value.str "s")] : Obj).map Prod.fst).Nodup) ∧
    lookupKV (applyApplyConfigurations [[("b", Value.obj [("y", Value.num 3)]), ("c", Value.str "s")]]
        [("a", Value.num 1), ("b", Value.obj [("x", Value.num 2)])]) "b" =
      some (.obj [("x", .num 2), ("y", .num 3)]) := by
  refine ⟨by decide, ?_⟩
  have h := (applyConfiguration_merges_by_key
    [("a", Value.num 1), ("b", Value.obj [("x", Value.num 2)])]
    [("b", Value.obj [("y", Value.num 3)]), ("c", Value.str "s")] (by decide)).1 "b"
  simpa [lookupKV, mergeObjects, mergeStep, insertKV] using h

/-! ### Validation-failure routing (C1) -/

theorem handleValidationFailure_eq (eval : Eval) (validation : Validation)
    (binding : Option ValidatingBinding) (audit : List (String × String)) (vars : Vars)
    (hok : validation.messageExpression = "" ∨
      ∃ v, evaluateExpression eval validation.messageExpression vars = .ok v) :
    handleValidationFailure eval validation binding audit vars =
      .ok (match getValidationAction binding with
        | "Warn" =>
            { allowed := true, warnings := [specFailureMessage eval validation vars],
              auditAnnotations := audit }
        | "Audit" => { allowed := true, auditAnnotations := audit }
        | _ =>
            { allowed := false, message := specFailureMessage eval validation vars,
              auditAnnotations := audit }) := by
  by_cases h : validation.messageExpression = ""
  · by_cases hmsg : validation.message = "" <;>
      simp [handleValidationFailure, specFailureMessage, h, hmsg] <;>
      split <;> rfl
  · obtain ⟨v, hv⟩ := hok.resolve_left h
    cases v with
    | str s =>
        by_cases htrim : trimSpace s = ""
        · by_cases hmsg : validation.message = "" <;>
            simp [handleValidationFailure, specFailureMessage, h, hv, htrim, hmsg] <;>
            split <;> rfl
        · have hs : s ≠ "" := by
            intro hcon
            subst hcon
            exact htrim rfl
          simp [handleValidationFailure, specFailureMessage, h, hv, htrim, hs] <;>
            split <;> rfl
    | null =>
        by_cases hmsg : validation.message = "" <;>
          simp [handleValidationFailure, specFailureMessage, h, hv, hmsg] <;>
          split <;> rfl
    | bool b =>
        by_cases hmsg : validation.message = "" <;>
          simp [handleValidationFailure, specFailureMessage, h, hv, hmsg] <;>
          split <;> rfl
    | num n =>
        by_cases hmsg : validation.message = "" <;>
          simp [handleValidationFailure, specFailureMessage, h, hv, hmsg] <;>
          split <;> rfl
    | arr a =>
        by_cases hmsg : validation.message = "" <;>
          simp [handleValidationFailure, specFailureMessage, h, hv, hmsg] <;>
          split <;> rfl
    | obj o =>
        by_cases hmsg : validation.message = "" <;>
          simp [handleValidationFailure, specFailureMessage, h, hv, hmsg] <;>
          split <;> rfl

/-- **C1** — When a validation fails (and the messageExpression, if
provided, evaluates without error) the outcome is routed by the first
element of the binding's validationActions: `Warn` allows with the
failure message as the single warning, `Audit` allows without
surfacing the message, and `Deny` — as well as an absent binding or an
empty validationActions list — denies carrying the message; the
message follows the messageExpression / static message / synthetic
fallback rule, and all three outcomes carry the previously computed
audit annotations. -/
theorem handleValidationFailure_routes_by_first_action
    (eval : Eval) (validation : Validation) (binding : Option ValidatingBinding)
    (audit : List (String × String)) (vars : Vars)
    (hok : validation.messageExpression = "" ∨
      ∃ v, evaluateExpression eval validation.messageExpression vars = .ok v) :
    (getValidationAction binding = "Warn" →
      handleValidationFailure eval validation binding audit vars =
        .ok { allowed := true, warnings := [specFailureMessage eval validation vars],
              auditAnnotations := audit }) ∧
    (getValidationAction binding = "Audit" →
      handleValidationFailure eval validation binding audit vars =
        .ok { allowed := true, auditAnnotations := audit }) ∧
    (getValidationAction binding = "Deny" ∨ binding = none ∨
        (∃ b, binding = some b ∧ b.validationActions = []) →
      handleValidationFailure eval validation binding audit vars =
        .ok { allowed := false, message := specFailureMessage eval validation vars,
              auditAnnotations := audit }) := by
  rw [handleValidationFailure_eq eval validation binding audit vars hok]
  refine ⟨?_, ?_, ?_⟩
  · intro hact
    rw [hact]
    rfl
  · intro hact
    rw [hact]
    rfl
  · intro hact
    rcases hact with hact | hact | ⟨b, hb, hacts⟩
    · rw [hact]
      rfl
    · have : getValidationAction binding = "" := by
        rw [hact, getValidationAction]
      rw [this]
      rfl
    · have : getValidationAction binding = "" := by
        rw [hb, getValidationAction, hacts]
      rw [this]
      rfl

theorem handleValidationFailure_routes_witness :
    (((none : Option ValidatingBinding) = none ∨
      (∃ v, evaluateExpression (fun _ _ => .ok (.plain (.str "boom"))) "msgExpr" [] = .ok v)) →
      True) ∧
    handleValidationFailure (fun _ _ => .ok (.plain (.str "boom")))
        { expression := "false", message := "static", messageExpression := "msgExpr" }
        none [("k", "v")] [] =
      .ok { allowed := false, message := "boom", auditAnnotations := [("k", "v")] } := by
  refine ⟨fun _ => trivial, ?_⟩
  have h := (handleValidationFailure_routes_by_first_action
    (fun _ _ => .ok (.plain (.str "boom")))
    { expression := "false", message := "static", messageExpression := "msgExpr" }
    none [("k", "v")] []
    (Or.inr ⟨.str "boom", rfl⟩)).2.2 (Or.inr (Or.inl rfl))
  simpa [specFailureMessage, evaluateExpression, unwrapRaw, trimSpace] using h

/-! ### Match-condition gate (C2) and nil-object handling (C10) -/

/-- **C2** — If the match conditions evaluate to false, both engines
return `{allowed := true}` with no patched object, no message, no
warnings and no annotations, for every list of validations, audit
annotations and mutations — including ones whose expressions the
oracle would fail on — so no expression after the failing match
condition is ever evaluated. -/
theorem matchCondition_gate_short_circuit
    (eval : Eval) (patchApply : PatchEngine)
    (mc : List MatchCondition) (vals : List Validation) (anns : List AuditAnnotation)
    (muts : List Mutation)
    (vbinding : Option ValidatingBinding) (mbinding : Option MutatingBinding)
    (request : Option AdmissionRequest) (rm : Obj)
    (object oldObject params namespaceObj : Option Obj)
    (auth : Option MockAuthorizer) (userInfo : Option UserInfo)
    (hreq : convertAdmissionRequest request = .ok rm) :
    (matchesNamespaceSelector vbinding namespaceObj = true →
      evaluateMatchConditions eval mc
          (setupValidatingVars rm object oldObject params namespaceObj auth userInfo) =
        .ok false →
      EvaluateValidating eval ⟨mc, vals, anns⟩ vbinding request object oldObject params
          namespaceObj auth userInfo = .ok { allowed := true }) ∧
    (∀ primaryObject, matchesNamespaceSelectorV1Beta1 mbinding namespaceObj = true →
      getPrimaryObject object oldObject = some primaryObject →
      evaluateMatchConditionsV1Beta1 eval mc
          (prepareMutatingVars rm primaryObject oldObject params namespaceObj auth userInfo) =
        .ok false →
      EvaluateMutating eval patchApply ⟨mc, muts⟩ mbinding request object oldObject params
          namespaceObj auth userInfo = .ok { allowed := true }) := by
  constructor
  · intro hns hmc
    simp [EvaluateValidating, hns, hreq, hmc]
  · intro primaryObject hns hprim hmc
    simp [EvaluateMutating, hns, hreq, hprim, hmc]

theorem matchCondition_gate_short_circuit_witness :
    convertAdmissionRequest none = .ok [] ∧
    EvaluateValidating
        (fun e _ => if e = "cond" then .ok (.plain (.bool false)) else .error "boom")
        ⟨[⟨"c", "cond"⟩], [⟨"would-error", "", "", ""⟩], [⟨"k", "would-error"⟩]⟩
        none none none none none none none none =
      .ok { allowed := true } := by
  refine ⟨rfl, ?_⟩
  exact (matchCondition_gate_short_circuit
    (fun e _ => if e = "cond" then .ok (.plain (.bool false)) else .error "boom")
    (fun _ o => .ok o)
    [⟨"c", "cond"⟩] [⟨"would-error", "", "", ""⟩] [⟨"k", "would-error"⟩] []
    none none none [] none none none none none none rfl).1 rfl rfl

/-- **C10** — A mutating evaluation with neither object nor oldObject
is a fatal `"mutating policy requires object or oldObject"` error, but
only after the namespace-selector gate: a non-matching selector
returns `{allowed := true}` without error even though no object was
supplied. -/
theorem evaluateMutating_nil_objects_after_gate
    (eval : Eval) (patchApply : PatchEngine) (policy : MutatingPolicy)
    (binding : Option MutatingBinding) (request : Option AdmissionRequest) (rm : Obj)
    (params namespaceObj : Option Obj)
    (auth : Option MockAuthorizer) (userInfo : Option UserInfo)
    (hreq : convertAdmissionRequest request = .ok rm) :
    (matchesNamespaceSelectorV1Beta1 binding namespaceObj = false →
      EvaluateMutating eval patchApply policy binding request none none params
          namespaceObj auth userInfo = .ok { allowed := true }) ∧
    (matchesNamespaceSelectorV1Beta1 binding namespaceObj = true →
      EvaluateMutating eval patchApply policy binding request none none params
          namespaceObj auth userInfo =
        .error "mutating policy requires object or oldObject") := by
  constructor
  · intro hns
    simp [EvaluateMutating, hns]
  · intro hns
    simp [EvaluateMutating, hns, hreq, getPrimaryObject]

theorem evaluateMutating_nil_objects_witness :
    convertAdmissionRequest none = .ok [] ∧
    matchesNamespaceSelectorV1Beta1
      (some ⟨some ⟨some ⟨[("env", "prod")]⟩⟩⟩)
      (some [("metadata", .obj [("labels", .obj [("env", .str "dev")])])]) = false ∧
    EvaluateMutating (fun _ _ => .error "boom") (fun _ o => .ok o)
        ⟨[], []⟩ (some ⟨some ⟨some ⟨[("env", "prod")]⟩⟩⟩) none none none none
        (some [("metadata", .obj [("labels", .obj [("env", .str "dev")])])]) none none =
      .ok { allowed := true } ∧
    EvaluateMutating (fun _ _ => .error "boom") (fun _ o => .ok o)
        ⟨[], []⟩ none none none none none none none none =
      .error "mutating policy requires object or oldObject" := by
  refine ⟨rfl, by decide, ?_, ?_⟩
  · exact (evaluateMutating_nil_objects_after_gate (fun _ _ => .error "boom") (fun _ o => .ok o)
      ⟨[], []⟩ (some ⟨some ⟨some ⟨[("env", "prod")]⟩⟩⟩) none []
      none (some [("metadata", .obj [("labels", .obj [("env", .str "dev")])])])
      none none rfl).1 (by decide)
  · exact (evaluateMutating_nil_objects_after_gate (fun _ _ => .error "boom") (fun _ o => .ok o)
      ⟨[], []⟩ none none [] none none none none rfl).2 rfl

/-! ### Audit annotations (C5) -/

theorem evaluateAuditAnnotationsAux_spec (eval : Eval) (vars : Vars) :
    ∀ (annots : List AuditAnnotation) (acc m : List (String × String)),
      (annots.map (fun a => a.key)).Nodup →
      (∀ a ∈ annots, lookupKV acc a.key = none) →
      evaluateAuditAnnotationsAux eval acc annots vars = .ok m →
      (∀ a ∈ annots, lookupKV m a.key =
        match evaluateExpression eval a.valueExpression vars with
        | .ok (.str s) => if s = "" then none else some s
        | _ => none) ∧
      (∀ k, k ∉ annots.map (fun a => a.key) → lookupKV m k = lookupKV acc k) := by
  intro annots
  induction annots with
  | nil =>
      intro acc m _ _ h
      obtain rfl : acc = m := by simpa [evaluateAuditAnnotationsAux] using h
      exact ⟨by simp, fun k _ => rfl⟩
  | cons a rest ih =>
      intro acc m hnodup hacc h
      simp only [List.map_cons, List.nodup_cons] at hnodup
      obtain ⟨hka, hrest⟩ := hnodup
      simp only [evaluateAuditAnnotationsAux] at h
      cases hv : evaluateExpression eval a.valueExpression vars with
      | error e =>
          rw [hv] at h
          simp at h
      | ok v =>
          rw [hv] at h
          have hsame : ∀ k, k ≠ a.key → lookupKV (auditStep acc a.key v) k = lookupKV acc k := by
            intro k hk
            cases v with
            | str s =>
                by_cases hs : s = ""
                · simp [auditStep, hs]
                · simp [auditStep, hs,
                    lookupKV_insertKV_ne acc a.key k s (fun hh => hk hh.symm)]
            | null => rfl
            | bool b => rfl
            | num n => rfl
            | arr l => rfl
            | obj o => rfl
          have hself : lookupKV acc a.key = none →
              lookupKV (auditStep acc a.key v) a.key =
                (match (Except.ok v : Except String Value) with
                 | .ok (.str s) => if s = "" then none else some s
                 | _ => none) := by
            intro hnone
            cases v with
            | str s =>
                by_cases hs : s = ""
                · simpa [auditStep, hs] using hnone
                · simp [auditStep, hs, lookupKV_insertKV_self]
            | null => simpa [auditStep] using hnone
            | bool b => simpa [auditStep] using hnone
            | num n => simpa [auditStep] using hnone
            | arr l => simpa [auditStep] using hnone
            | obj o => simpa [auditStep] using hnone
          have haccrest : ∀ b ∈ rest, lookupKV (auditStep acc a.key v) b.key = none := by
            intro b hb
            have hbk : b.key ≠ a.key := by
              intro hh
              exact hka (hh ▸ List.mem_map_of_mem (fun x => x.key) hb)
            rw [hsame b.key hbk]
            exact hacc b (List.mem_cons_of_mem a hb)
          obtain ⟨ih₁, ih₂⟩ := ih (auditStep acc a.key v) m hrest haccrest h
          refine ⟨?_, ?_⟩
          · intro b hb
            rcases List.mem_cons.mp hb with hb | hb
            · subst hb
              rw [ih₂ b.key hka, hv]
              exact hself (hacc b (List.mem_cons_self b rest))
            · exact ih₁ b hb
          · intro k hk
            simp only [List.map_cons, List.mem_cons, not_or] at hk
            obtain ⟨hk₁, hk₂⟩ := hk
            rw [ih₂ k hk₂, hsame k hk₁]

theorem handleValidationFailure_ok_msgOk (eval : Eval) (validation : Validation)
    (binding : Option ValidatingBinding) (audit : List (String × String)) (vars : Vars)
    (r : EvaluationResult)
    (h : handleValidationFailure eval validation binding audit vars = .ok r) :
    validation.messageExpression = "" ∨
      ∃ v, evaluateExpression eval validation.messageExpression vars = .ok v := by
  by_cases hme : validation.messageExpression = ""
  · exact Or.inl hme
  · cases hv : evaluateExpression eval validation.messageExpression vars with
    | ok v => exact Or.inr ⟨v, rfl⟩
    | error e =>
        exfalso
        simp [handleValidationFailure, hme, hv, Bind.bind, Except.bind] at h

theorem handleValidationFailure_ok_audit (eval : Eval) (validation : Validation)
    (binding : Option ValidatingBinding) (audit : List (String × String)) (vars : Vars)
    (r : EvaluationResult)
    (h : handleValidationFailure eval validation binding audit vars = .ok r) :
    r.auditAnnotations = audit := by
  rw [handleValidationFailure_eq eval validation binding audit vars
    (handleValidationFailure_ok_msgOk eval validation binding audit vars r h)] at h
  injection h with h
  split at h <;> rw [← h]

theorem handleValidationFailure_ok_allowed (eval : Eval) (validation : Validation)
    (binding : Option ValidatingBinding) (audit : List (String × String)) (vars : Vars)
    (r : EvaluationResult)
    (h : handleValidationFailure eval validation binding audit vars = .ok r) :
    r.allowed = (getValidationAction binding == "Warn" || getValidationAction binding == "Audit") := by
  rw [handleValidationFailure_eq eval validation binding audit vars
    (handleValidationFailure_ok_msgOk eval validation binding audit vars r h)] at h
  injection h with h
  split at h <;> rw [← h] <;> simp_all

theorem evaluateValidationsLoop_ok_audit (eval : Eval) (binding : Option ValidatingBinding)
    (vars : Vars) (audit : List (String × String)) :
    ∀ (vals : List Validation) (r : EvaluationResult),
      evaluateValidationsLoop eval vals binding audit vars = .ok r →
      r.auditAnnotations = audit := by
  intro vals
  induction vals with
  | nil =>
      intro r h
      simp only [evaluateValidationsLoop] at h
      injection h with h
      rw [← h]
  | cons v rest ih =>
      intro r h
      simp only [evaluateValidationsLoop] at h
      cases he : evaluateExpression eval v.expression vars with
      | error e =>
          rw [he] at h
          simp at h
      | ok result =>
          rw [he] at h
          cases result with
          | bool b =>
              cases b with
              | true => exact ih r (by simpa using h)
              | false =>
                  exact handleValidationFailure_ok_audit eval v binding audit vars r
                    (by simpa using h)
          | null => simp at h
          | num n => simp at h
          | str s => simp at h
          | arr l => simp at h
          | obj o => simp at h

theorem evaluateValidationsLoop_allowed_indep (eval : Eval) (binding : Option ValidatingBinding)
    (vars : Vars) :
    ∀ (vals : List Validation) (audit₁ audit₂ : List (String × String))
      (r₁ r₂ : EvaluationResult),
      evaluateValidationsLoop eval vals binding audit₁ vars = .ok r₁ →
      evaluateValidationsLoop eval vals binding audit₂ vars = .ok r₂ →
      r₁.allowed = r₂.allowed := by
  intro vals
  induction vals with
  | nil =>
      intro audit₁ audit₂ r₁ r₂ h₁ h₂
      simp only [evaluateValidationsLoop] at h₁ h₂
      injection h₁ with h₁
      injection h₂ with h₂
      rw [← h₁, ← h₂]
  | cons v rest ih =>
      intro audit₁ audit₂ r₁ r₂ h₁ h₂
      simp only [evaluateValidationsLoop] at h₁ h₂
      cases he : evaluateExpression eval v.expression vars with
      | error e =>
          rw [he] at h₁
          simp at h₁
      | ok result =>
          rw [he] at h₁ h₂
          cases result with
          | bool b =>
              cases b with
              | true => exact ih audit₁ audit₂ r₁ r₂ (by simpa using h₁) (by simpa using h₂)
              | false =>
                  rw [handleValidationFailure_ok_allowed eval v binding audit₁ vars r₁
                    (by simpa using h₁)]
                  rw [handleValidationFailure_ok_allowed eval v binding audit₂ vars r₂
                    (by simpa using h₂)]
          | null => simp at h₁
          | num n => simp at h₁
          | str s => simp at h₁
          | arr l => simp at h₁
          | obj o => simp at h₁

/-- **C5** — When the audit-annotation step is reached, every value
expression is evaluated; a non-empty string result is recorded under
the annotation key while empty strings and non-strings are dropped;
the recorded annotations appear in the result whether the validations
allow or deny; and the annotations never influence the `allowed`
field. -/
theorem auditAnnotations_recorded_and_independent
    (eval : Eval) (mc : List MatchCondition) (vals : List Validation)
    (anns : List AuditAnnotation) (binding : Option ValidatingBinding)
    (request : Option AdmissionRequest) (rm : Obj)
    (object oldObject params namespaceObj : Option Obj)
    (auth : Option MockAuthorizer) (userInfo : Option UserInfo)
    (m : List (String × String))
    (hreq : convertAdmissionRequest request = .ok rm)
    (hns : matchesNamespaceSelector binding namespaceObj = true)
    (hmc : evaluateMatchConditions eval mc
      (setupValidatingVars rm object oldObject params namespaceObj auth userInfo) = .ok true)
    (hnodup : (anns.map (fun a => a.key)).Nodup)
    (hanns : evaluateAuditAnnotations eval anns
      (setupValidatingVars rm object oldObject params namespaceObj auth userInfo) = .ok m) :
    (∀ a ∈ anns, lookupKV m a.key =
      match evaluateExpression eval a.valueExpression
          (setupValidatingVars rm object oldObject params namespaceObj auth userInfo) with
      | .ok (.str s) => if s = "" then none else some s
      | _ => none) ∧
    (∀ k, k ∉ anns.map (fun a => a.key) → lookupKV m k = none) ∧
    (∀ r, EvaluateValidating eval ⟨mc, vals, anns⟩ binding request object oldObject params
        namespaceObj auth userInfo = .ok r → r.auditAnnotations = m) ∧
    (∀ anns₂ m₂ r r₂,
      evaluateAuditAnnotations eval anns₂
        (setupValidatingVars rm object oldObject params namespaceObj auth userInfo) = .ok m₂ →
      EvaluateValidating eval ⟨mc, vals, anns⟩ binding request object oldObject params
        namespaceObj auth userInfo = .ok r →
      EvaluateValidating eval ⟨mc, vals, anns₂⟩ binding request object oldObject params
        namespaceObj auth userInfo = .ok r₂ →
      r.allowed = r₂.allowed) := by
  obtain ⟨h₁, h₂⟩ := evaluateAuditAnnotationsAux_spec eval
    (setupValidatingVars rm object oldObject params namespaceObj auth userInfo)
    anns [] m hnodup (by simp [lookupKV]) hanns
  refine ⟨h₁, ?_, ?_, ?_⟩
  · intro k hk
    simpa [lookupKV] using h₂ k hk
  · intro r h
    simp only [EvaluateValidating, hns, hreq, hmc, hanns, Bool.not_true, Bool.false_eq_true,
      if_false] at h
    exact evaluateValidationsLoop_ok_audit eval binding _ m vals r h
  · intro anns₂ m₂ r r₂ hanns₂ h hB
    simp only [EvaluateValidating, hns, hreq, hmc, hanns, hanns₂, Bool.not_true,
      Bool.false_eq_true, if_false] at h hB
    exact evaluateValidationsLoop_allowed_indep eval binding _ vals m m₂ r r₂ h hB

theorem auditAnnotations_recorded_witness :
    evaluateAuditAnnotations
        (fun e _ =>
          if e = "e1" then .ok (.plain (.str "v1"))
          else if e = "e2" then .ok (.plain (.str ""))
          else if e = "e3" then .ok (.plain (.num 7))
          else .ok (.plain (.bool true)))
        [⟨"k1", "e1"⟩, ⟨"k2", "e2"⟩, ⟨"k3", "e3"⟩]
        (setupValidatingVars [] none none none none none none) = .ok [("k1", "v1")] ∧
    lookupKV [("k1", "v1")] "k1" = some "v1" ∧
    lookupKV [("k1", "v1")] "k2" = none := by
  refine ⟨rfl, ?_, ?_⟩
  · have h := (auditAnnotations_recorded_and_independent
      (fun e _ =>
        if e = "e1" then .ok (.plain (.str "v1"))
        else if e = "e2" then .ok (.plain (.str ""))
        else if e = "e3" then .ok (.plain (.num 7))
        else .ok (.plain (.bool true)))
      [] [] [⟨"k1", "e1"⟩, ⟨"k2", "e2"⟩, ⟨"k3", "e3"⟩] none none []
      none none none none none none [("k1", "v1")]
      rfl rfl rfl (by decide) rfl).1 ⟨"k1", "e1"⟩ (by simp)
    simpa [evaluateExpression, unwrapRaw] using h
  · have h := (auditAnnotations_recorded_and_independent
      (fun e _ =>
        if e = "e1" then .ok (.plain (.str "v1"))
        else if e = "e2" then .ok (.plain (.str ""))
        else if e = "e3" then .ok (.plain (.num 7))
        else .ok (.plain (.bool true)))
      [] [] [⟨"k1", "e1"⟩, ⟨"k2", "e2"⟩, ⟨"k3", "e3"⟩] none none []
      none none none none none none [("k1", "v1")]
      rfl rfl rfl (by decide) rfl).1 ⟨"k2", "e2"⟩ (by simp)
    simpa [evaluateExpression, unwrapRaw] using h

/-! ### Fatal evaluator errors (C7) -/

/-- **C7** — A fatal evaluator error (any `Except.error` from the
engine: CEL compile failure, non-boolean boolean-typed expression,
malformed patch, failing patch application) records the test as failed
with the message `"evaluation error: "` followed by the error, and no
expectation field is compared: every test case with the same inputs
gets the same verdict whatever its expectations are. -/
theorem fatal_error_fails_test (eval : Eval) (patchApply : PatchEngine)
    (mp : Option MutatingPolicy) (mb : Option MutatingBinding)
    (vp : Option ValidatingPolicy) (vb : Option ValidatingBinding) (tc : TestCase)
    (e : String)
    (hload : tc.loadError = none)
    (herr : evaluatePolicy eval patchApply mp mb vp vb tc = .error e) :
    EvaluateTest eval patchApply mp mb vp vb tc =
      { passed := false, message := "evaluation error: " ++ e } ∧
    (∀ tc₂ : TestCase, tc₂.loadError = none →
      tc₂.request = tc.request → tc₂.object = tc.object → tc₂.oldObject = tc.oldObject →
      tc₂.params = tc.params → tc₂.namespaceObj = tc.namespaceObj →
      tc₂.userInfo = tc.userInfo → tc₂.authorizer = tc.authorizer →
      EvaluateTest eval patchApply mp mb vp vb tc₂ =
        { passed := false, message := "evaluation error: " ++ e }) := by
  constructor
  · simp [EvaluateTest, hload, herr]
  · intro tc₂ hload₂ h₁ h₂ h₃ h₄ h₅ h₆ h₇
    have hpol : evaluatePolicy eval patchApply mp mb vp vb tc₂ =
        evaluatePolicy eval patchApply mp mb vp vb tc := by
      cases mp <;> cases vp <;> simp [evaluatePolicy, h₁, h₂, h₃, h₄, h₅, h₆, h₇]
    simp [EvaluateTest, hload₂, hpol, herr]

theorem fatal_error_fails_test_witness :
    evaluatePolicy (fun _ _ => .ok (.plain (.str "oops"))) (fun _ o => .ok o)
        none none (some ⟨[], [⟨"vexp", "", "", ""⟩], []⟩) none {} =
      .error "validation expression returned non-boolean: vexp returned string" ∧
    ({} : TestCase).loadError = none ∧
    EvaluateTest (fun _ _ => .ok (.plain (.str "oops"))) (fun _ o => .ok o)
        none none (some ⟨[], [⟨"vexp", "", "", ""⟩], []⟩) none {} =
      { passed := false,
        message :=
          "evaluation error: validation expression returned non-boolean: vexp returned string" } := by
  refine ⟨rfl, rfl, ?_⟩
  exact (fatal_error_fails_test (fun _ _ => .ok (.plain (.str "oops"))) (fun _ o => .ok o)
    none none (some ⟨[], [⟨"vexp", "", "", ""⟩], []⟩) none {}
    "validation expression returned non-boolean: vexp returned string" rfl rfl).1

/-! ### Input immutability of the mutation engine (C8) -/

theorem heapRead_append_lt (s : Store) (v : Obj) (a : Addr) (ha : a < s.length) :
    heapRead (s ++ [v]) a = heapRead s a := by
  simp only [heapRead, List.getD_eq_getElem?_getD]
  rw [List.getElem?_append_left ha]

theorem heapRead_heapWrite_ne (s : Store) (a b : Addr) (v : Obj) (h : a ≠ b) :
    heapRead (heapWrite s b v) a = heapRead s a := by
  simp only [heapWrite, heapRead, List.getD_eq_getElem?_getD]
  rw [List.getElem?_set_ne (fun hh => h hh.symm)]

theorem heapWrite_length (s : Store) (b : Addr) (v : Obj) :
    (heapWrite s b v).length = s.length := by
  simp [heapWrite]

theorem applyMutationsHeapLoop_preserves (eval : Eval) (patchApply : PatchEngine) (vars : Vars) :
    ∀ (muts : List Mutation) (s : Store) (cur : Addr) (n : Nat), n ≤ s.length →
      ∀ a, a < n →
        heapRead ((applyMutationsHeapLoop eval patchApply vars muts s cur).1) a =
          heapRead s a := by
  intro muts
  induction muts with
  | nil =>
      intro s cur n _ a _
      simp [applyMutationsHeapLoop]
  | cons m rest ih =>
      intro s cur n hn a ha
      have haS : a < s.length := lt_of_lt_of_le ha hn
      rw [applyMutationsHeapLoop]
      by_cases hjp : m.patchType = "JSONPatch"
      · rw [if_pos hjp]
        cases hev : evaluateJSONPatchMutation eval m vars with
        | error e => rfl
        | ok patchOpt =>
            cases patchOpt with
            | none => exact ih s cur n hn a ha
            | some patch =>
                dsimp only
                by_cases hops : (([patch].filterMap
                    (fun p => match p with | .arr elems => some elems | _ => none)).flatten).isEmpty = true
                · rw [if_pos hops]
                  refine (ih _ _ n ?_ a ha).trans ?_
                  · simp only [heapAlloc, List.length_append, List.length_cons,
                      List.length_nil]
                    omega
                  · exact heapRead_append_lt s _ a haS
                · rw [if_neg hops]
                  cases hpa : patchApply (([patch].filterMap
                      (fun p => match p with | .arr elems => some elems | _ => none)).flatten)
                      (heapRead s cur) with
                  | error e => rfl
                  | ok patched =>
                      refine (ih _ _ n ?_ a ha).trans ?_
                      · simp only [heapAlloc, List.length_append, List.length_cons,
                          List.length_nil]
                        omega
                      · exact heapRead_append_lt s _ a haS
      · rw [if_neg hjp]
        by_cases hac : m.patchType = "ApplyConfiguration"
        · rw [if_pos hac]
          cases hev : evaluateApplyConfigurationMutation eval m vars with
          | error e => rfl
          | ok configOpt =>
              cases configOpt with
              | none => exact ih s cur n hn a ha
              | some config =>
                  refine (ih _ _ n ?_ a ha).trans ?_
                  · simp [heapWrite, heapAlloc]
                    omega
                  · refine (heapRead_heapWrite_ne _ a _ _ ?_).trans
                      (heapRead_append_lt s _ a haS)
                    show a ≠ s.length
                    omega
        · rw [if_neg hac]

/-- **C8** — The mutation engine never writes to the caller's input
object: it deep-copies the input into a fresh cell and applies every
patch there, so after `applyMutations` returns (with a result or an
error) every previously allocated object — in particular the input
`object` and `oldObject` — holds exactly its pre-call value. -/
theorem applyMutations_preserves_input_heap (eval : Eval) (patchApply : PatchEngine)
    (mutations : List Mutation) (vars : Vars) (s : Store) (objAddr : Addr)
    (a : Addr) (ha : a < s.length) :
    heapRead ((applyMutationsHeap eval patchApply mutations vars s objAddr).1) a =
      heapRead s a := by
  unfold applyMutationsHeap
  simp only [heapAlloc]
  rw [applyMutationsHeapLoop_preserves eval patchApply vars mutations
    (s ++ [heapRead s objAddr]) s.length s.length (by simp) a ha]
  exact heapRead_append_lt s _ a ha

theorem applyMutations_preserves_input_heap_witness :
    (0 : Addr) < ([[("x", Value.num 1)]] : Store).length ∧
    heapRead ((applyMutationsHeap
        (fun _ _ => .ok (.objectVal [("x", .num 2)])) (fun _ o => .ok o)
        [⟨"ApplyConfiguration", none, some "Object\x7bx: 2\x7d"⟩] []
        [[("x", Value.num 1)]] 0).1) 0 = [("x", Value.num 1)] := by
  refine ⟨by decide, ?_⟩
  have h := applyMutations_preserves_input_heap
    (fun _ _ => .ok (.objectVal [("x", .num 2)])) (fun _ o => .ok o)
    [⟨"ApplyConfiguration", none, some "Object\x7bx: 2\x7d"⟩] []
    [[("x", Value.num 1)]] 0 0 (by decide)
  simpa [heapRead] using h

/-! ### Mock authorizer (C9) -/

theorem lookupKV_foldl_mockAdd (configs : List AuthorizationMockConfig) :
    ∀ (m₀ : MockAuthorizer) (key : String),
      (lookupKV (configs.foldl mockAdd m₀) key).isSome =
        ((lookupKV m₀ key).isSome ||
          configs.any (fun c => mockKey c.group c.resource c.subresource c.ns c.verb == key)) := by
  induction configs with
  | nil =>
      intro m₀ key
      simp
  | cons c rest ih =>
      intro m₀ key
      simp only [List.foldl_cons, List.any_cons]
      rw [ih]
      by_cases hk : mockKey c.group c.resource c.subresource c.ns c.verb = key
      · simp [mockAdd, hk, lookupKV_insertKV_self]
      · have hb : (mockKey c.group c.resource c.subresource c.ns c.verb == key) = false :=
          beq_eq_false_iff_ne.mpr hk
        simp [mockAdd, lookupKV_insertKV_ne _ _ _ _ hk, hb]

theorem mockTable_no_noOpinion (configs : List AuthorizationMockConfig) :
    ∀ (m₀ : MockAuthorizer),
      (∀ k d, lookupKV m₀ k = some d → d ≠ Decision.noOpinion) →
      ∀ k d, lookupKV (configs.foldl mockAdd m₀) k = some d → d ≠ Decision.noOpinion := by
  induction configs with
  | nil =>
      intro m₀ h k d
      exact h k d
  | cons c rest ih =>
      intro m₀ h k d
      simp only [List.foldl_cons]
      apply ih
      intro k₁ d₁ h₁
      rw [mockAdd, lookupKV_insertKV] at h₁
      by_cases hk : mockKey c.group c.resource c.subresource c.ns c.verb = k₁
      · rw [if_pos hk] at h₁
        injection h₁ with h₁
        by_cases hd : c.decision = "allow"
        · simp [hd] at h₁
          rw [← h₁]
          simp
        · simp [hd] at h₁
          rw [← h₁]
          simp
      · rw [if_neg hk] at h₁
        exact h k₁ d₁ h₁

/-- **C9** counterexample — Two distinct tuples whose components
contain a slash collide on the joined lookup key: the check
`("a", "b/c", "", "", "v")` does not equal the configured tuple
`("a/b", "c", "", "", "v")`, yet the authorizer returns the recorded
allow decision with reason "mock decision" instead of no-opinion. -/
theorem mockAuthorizer_tuple_claim_counterexample :
    mockAuthorize (newMockAuthorizerFromConfig [⟨"a/b", "c", "", "", "v", "allow"⟩])
      ⟨"a", "b/c", "", "", "v"⟩ = (Decision.allow, "mock decision") ∧
    (("a", "b/c", "", "", "v") : String × String × String × String × String) ≠
      ("a/b", "c", "", "", "v") := by
  exact ⟨rfl, by decide⟩

/-- **C9** (amended) — A check returns a recorded (allow or deny)
decision with reason "mock decision" exactly when its slash-joined key
`group/resource/subresource/namespace/verb` equals the joined key of
some configured record — which coincides with tuple equality whenever
no component contains a slash, as the third conjunct shows — and
returns the no-opinion decision otherwise; the CEL `authorizer`
variable is bound in the variable bag exactly when both an authorizer
and a user-info value are supplied. -/
theorem mockAuthorizer_key_semantics (configs : List AuthorizationMockConfig)
    (attrs : Attributes) :
    ((∃ c ∈ configs,
        mockKey c.group c.resource c.subresource c.ns c.verb =
          mockKey attrs.apiGroup attrs.resource attrs.subresource attrs.ns attrs.verb) →
      ∃ d, mockAuthorize (newMockAuthorizerFromConfig configs) attrs = (d, "mock decision") ∧
        d ≠ Decision.noOpinion) ∧
    ((¬∃ c ∈ configs,
        mockKey c.group c.resource c.subresource c.ns c.verb =
          mockKey attrs.apiGroup attrs.resource attrs.subresource attrs.ns attrs.verb) →
      mockAuthorize (newMockAuthorizerFromConfig configs) attrs =
        (Decision.noOpinion, "no opinion")) ∧
    (∀ c ∈ configs, c.group = attrs.apiGroup → c.resource = attrs.resource →
      c.subresource = attrs.subresource → c.ns = attrs.ns → c.verb = attrs.verb →
      ∃ d, mockAuthorize (newMockAuthorizerFromConfig configs) attrs = (d, "mock decision") ∧
        d ≠ Decision.noOpinion) ∧
    (∀ rm object oldObject params namespaceObj auth userInfo,
      (lookupKV (setupValidatingVars rm object oldObject params namespaceObj auth userInfo)
        "authorizer").isSome = (auth.isSome && userInfo.isSome)) ∧
    (∀ rm primaryObject oldObject params namespaceObj auth userInfo,
      (lookupKV (prepareMutatingVars rm primaryObject oldObject params namespaceObj auth userInfo)
        "authorizer").isSome = (auth.isSome && userInfo.isSome)) := by
  have hpos : (∃ c ∈ configs,
      mockKey c.group c.resource c.subresource c.ns c.verb =
        mockKey attrs.apiGroup attrs.resource attrs.subresource attrs.ns attrs.verb) →
      ∃ d, mockAuthorize (newMockAuthorizerFromConfig configs) attrs = (d, "mock decision") ∧
        d ≠ Decision.noOpinion := by
    intro hmem
    have hsome : (lookupKV (newMockAuthorizerFromConfig configs)
        (mockKey attrs.apiGroup attrs.resource attrs.subresource attrs.ns attrs.verb)).isSome =
        true := by
      rw [newMockAuthorizerFromConfig, lookupKV_foldl_mockAdd]
      obtain ⟨c, hc, hkey⟩ := hmem
      simp only [lookupKV, Option.isSome_none, Bool.false_or, List.any_eq_true]
      exact ⟨c, hc, by simp [hkey]⟩
    cases hlook : lookupKV (newMockAuthorizerFromConfig configs)
        (mockKey attrs.apiGroup attrs.resource attrs.subresource attrs.ns attrs.verb) with
    | none => rw [hlook] at hsome; simp at hsome
    | some d =>
        refine ⟨d, ?_, ?_⟩
        · simp [mockAuthorize, hlook]
        · exact mockTable_no_noOpinion configs [] (by intro k d₁ h; simp [lookupKV] at h) _ d hlook
  refine ⟨hpos, ?_, ?_, ?_, ?_⟩
  · intro hmem
    have hnone : (lookupKV (newMockAuthorizerFromConfig configs)
        (mockKey attrs.apiGroup attrs.resource attrs.subresource attrs.ns attrs.verb)).isSome =
        false := by
      rw [newMockAuthorizerFromConfig, lookupKV_foldl_mockAdd]
      cases hany : configs.any (fun c =>
          mockKey c.group c.resource c.subresource c.ns c.verb ==
          mockKey attrs.apiGroup attrs.resource attrs.subresource attrs.ns attrs.verb) with
      | false => simp [lookupKV, hany]
      | true =>
          exfalso
          obtain ⟨c, hc, hk⟩ := List.any_eq_true.mp hany
          exact hmem ⟨c, hc, beq_iff_eq.mp hk⟩
    cases hlook : lookupKV (newMockAuthorizerFromConfig configs)
        (mockKey attrs.apiGroup attrs.resource attrs.subresource attrs.ns attrs.verb) with
    | some d => rw [hlook] at hnone; simp at hnone
    | none => simp [mockAuthorize, hlook]
  · intro c hc h₁ h₂ h₃ h₄ h₅
    exact hpos ⟨c, hc, by rw [h₁, h₂, h₃, h₄, h₅]⟩
  · intro rm object oldObject params namespaceObj auth userInfo
    cases auth <;> cases userInfo <;> cases oldObject <;> cases namespaceObj <;>
      simp [setupValidatingVars, lookupKV]
  · intro rm primaryObject oldObject params namespaceObj auth userInfo
    cases auth <;> cases userInfo <;> cases oldObject <;> cases namespaceObj <;>
      simp [prepareMutatingVars, lookupKV]

theorem mockAuthorizer_key_semantics_witness :
    (∃ c ∈ [(⟨"", "pods", "", "default", "create", "allow"⟩ : AuthorizationMockConfig)],
      mockKey c.group c.resource c.subresource c.ns c.verb =
        mockKey "" "pods" "" "default" "create") ∧
    mockAuthorize (newMockAuthorizerFromConfig [⟨"", "pods", "", "default", "create", "allow"⟩])
      ⟨"", "pods", "", "default", "create"⟩ = (Decision.allow, "mock decision") := by
  refine ⟨⟨_, List.mem_singleton.mpr rfl, rfl⟩, ?_⟩
  obtain ⟨d, hd, _⟩ := (mockAuthorizer_key_semantics
    [⟨"", "pods", "", "default", "create", "allow"⟩]
    ⟨"", "pods", "", "default", "create"⟩).1 ⟨_, List.mem_singleton.mpr rfl, rfl⟩
  have hall : d = Decision.allow := by
    have h₂ : mockAuthorize
        (newMockAuthorizerFromConfig [⟨"", "pods", "", "default", "create", "allow"⟩])
        ⟨"", "pods", "", "default", "create"⟩ = (Decision.allow, "mock decision") := rfl
    rw [h₂] at hd
    exact congrArg Prod.fst hd.symm
  rw [← hall]
  exact hd

/-! ### Request projection (C6) -/

/-- **C6** counterexample — Projecting a request whose kind is
`{group: "", version: "v1", kind: "Pod"}` and whose userInfo carries
only a uid produces a mapping in which the empty scalar
`request.kind.group` is present (so `has(request.kind.group)` is true
for an empty field) while the non-empty `userInfo.uid` is absent
(the whole `userInfo` block is dropped because username and groups are
empty), contradicting "every empty or zero-valued scalar field is
omitted ... `has(request.X)` is false exactly for the absent fields". -/
theorem convertAdmissionRequest_claim_counterexample :
    convertAdmissionRequest
        (some ⟨"", ⟨"", "v1", "Pod"⟩, ⟨"", "", ""⟩, "", "", "", "", ⟨"", "u1", [], []⟩,
          none, none⟩) =
      .ok [("kind", .obj [("group", .str ""), ("version", .str "v1"),
        ("kind", .str "Pod")])] ∧
    lookupKV [("kind", Value.obj [("group", .str ""), ("version", .str "v1"),
        ("kind", .str "Pod")])] "userInfo" = none := by
  exact ⟨rfl, rfl⟩

/-- **C6** (amended) — The projection maps field by field to the exact
JSON names: the top-level scalars `uid`, `subResource`, `name`,
`namespace`, `operation` are present iff non-empty; `kind` (resp.
`resource`) is present iff `kind.kind` (resp. `resource.resource`) is
non-empty and then always carries all three of group, version and
kind/resource, even when empty; `userInfo` is present iff username or
groups is non-empty, and inside it username, uid, groups and extra are
each present iff non-empty; `options` is the decoded mapping when raw
bytes are present and decodable; `dryRun` is present whenever the
field is set, even when false; and no other key occurs. -/
theorem lookupKV_optEntry_append (c : Prop) [Decidable c] (k : String) (v : Value)
    (rest : List (String × Value)) (k₀ : String) :
    lookupKV (optEntry c k v ++ rest) k₀ =
      if c ∧ k = k₀ then some v else lookupKV rest k₀ := by
  by_cases hc : c <;> by_cases hk : k = k₀ <;> simp [optEntry, lookupKV, hc, hk]

theorem lookupKV_dryRun_tail (o : Option Bool) (k : String) (hk : ¬("dryRun" = k)) :
    lookupKV (match o with | some b => [("dryRun", Value.bool b)] | none => []) k = none := by
  cases o <;> simp [lookupKV, hk]

theorem lookupKV_dryRun_tail_self (o : Option Bool) :
    lookupKV (match o with | some b => [("dryRun", Value.bool b)] | none => []) "dryRun" =
      o.map Value.bool := by
  cases o <;> simp [lookupKV]

theorem convertAdmissionRequest_field_characterization (req : AdmissionRequest)
    (hopt : req.options = none ∨ ∃ om, req.options = some (.decodable om)) :
    ∃ m ui, convertAdmissionRequest (some req) = .ok m ∧
      lookupKV m "uid" = (if req.uid ≠ "" then some (.str req.uid) else none) ∧
      lookupKV m "subResource" =
        (if req.subResource ≠ "" then some (.str req.subResource) else none) ∧
      lookupKV m "name" = (if req.name ≠ "" then some (.str req.name) else none) ∧
      lookupKV m "namespace" = (if req.ns ≠ "" then some (.str req.ns) else none) ∧
      lookupKV m "operation" =
        (if req.operation ≠ "" then some (.str req.operation) else none) ∧
      lookupKV m "kind" =
        (if req.kind.kind ≠ "" then
          some (.obj [("group", .str req.kind.group), ("version", .str req.kind.version),
            ("kind", .str req.kind.kind)])
         else none) ∧
      lookupKV m "resource" =
        (if req.resource.resource ≠ "" then
          some (.obj [("group", .str req.resource.group),
            ("version", .str req.resource.version),
            ("resource", .str req.resource.resource)])
         else none) ∧
      lookupKV m "userInfo" =
        (if req.userInfo.username ≠ "" ∨ req.userInfo.groups ≠ [] then some (.obj ui)
         else none) ∧
      lookupKV ui "username" =
        (if req.userInfo.username ≠ "" then some (.str req.userInfo.username) else none) ∧
      lookupKV ui "groups" =
        (if req.userInfo.groups ≠ [] then some (.arr (req.userInfo.groups.map .str))
         else none) ∧
      lookupKV ui "uid" =
        (if req.userInfo.uid ≠ "" then some (.str req.userInfo.uid) else none) ∧
      lookupKV ui "extra" =
        (if req.userInfo.extra ≠ [] then
          some (.obj (req.userInfo.extra.map (fun kv => (kv.1, .arr (kv.2.map .str)))))
         else none) ∧
      lookupKV m "options" =
        (match req.options with
         | some (.decodable om) => some (.obj om)
         | _ => none) ∧
      lookupKV m "dryRun" = req.dryRun.map Value.bool ∧
      (∀ k, k ∉ ["uid", "subResource", "name", "namespace", "operation", "kind",
          "resource", "userInfo", "options", "dryRun"] → lookupKV m k = none) := by
  have hoptm : ∃ opts : Obj,
      (match req.options with
        | none => (pure [] : Except String Obj)
        | some (.decodable mm) => pure [("options", .obj mm)]
        | some .undecodable => .error "unmarshal options: decode failed") = .ok opts ∧
      (∀ k, ¬(k = "options") → lookupKV opts k = none) ∧
      lookupKV opts "options" =
        (match req.options with
         | some (.decodable om) => some (.obj om)
         | _ => none) := by
    rcases hopt with h | ⟨om, h⟩
    · exact ⟨[], by rw [h]; rfl, fun k _ => rfl, by simp [h, lookupKV]⟩
    · refine ⟨[("options", .obj om)], by rw [h]; rfl, ?_, by simp [h, lookupKV]⟩
      intro k hk
      simp [lookupKV, show ¬("options" = k) from fun hh => hk hh.symm]
  obtain ⟨opts, hoptsEq, hoptsNe, hoptsLook⟩ := hoptm
  refine ⟨optEntry (req.uid ≠ "") "uid" (.str req.uid) ++
      optEntry (req.subResource ≠ "") "subResource" (.str req.subResource) ++
      optEntry (req.name ≠ "") "name" (.str req.name) ++
      optEntry (req.ns ≠ "") "namespace" (.str req.ns) ++
      optEntry (req.operation ≠ "") "operation" (.str req.operation) ++
      optEntry (req.kind.kind ≠ "") "kind"
        (.obj [("group", .str req.kind.group), ("version", .str req.kind.version),
          ("kind", .str req.kind.kind)]) ++
      optEntry (req.resource.resource ≠ "") "resource"
        (.obj [("group", .str req.resource.group), ("version", .str req.resource.version),
          ("resource", .str req.resource.resource)]) ++
      optEntry (req.userInfo.username ≠ "" ∨ req.userInfo.groups ≠ []) "userInfo"
        (.obj (optEntry (req.userInfo.username ≠ "") "username" (.str req.userInfo.username) ++
          optEntry (req.userInfo.groups ≠ []) "groups"
            (.arr (req.userInfo.groups.map .str)) ++
          optEntry (req.userInfo.uid ≠ "") "uid" (.str req.userInfo.uid) ++
          optEntry (req.userInfo.extra ≠ []) "extra"
            (.obj (req.userInfo.extra.map (fun kv => (kv.1, .arr (kv.2.map .str))))))) ++
      opts ++
      (match req.dryRun with
       | some b => [("dryRun", .bool b)]
       | none => []),
    optEntry (req.userInfo.username ≠ "") "username" (.str req.userInfo.username) ++
      optEntry (req.userInfo.groups ≠ []) "groups" (.arr (req.userInfo.groups.map .str)) ++
      optEntry (req.userInfo.uid ≠ "") "uid" (.str req.userInfo.uid) ++
      optEntry (req.userInfo.extra ≠ []) "extra"
        (.obj (req.userInfo.extra.map (fun kv => (kv.1, .arr (kv.2.map .str))))),
    ?_, ?_, ?_, ?_, ?_, ?_, ?_, ?_, ?_, ?_, ?_, ?_, ?_, ?_, ?_, ?_⟩
  · rw [convertAdmissionRequest, hoptsEq]
    rfl
  · simp only [List.append_assoc, lookupKV_optEntry_append]
    simp [lookupKV_append, hoptsNe, lookupKV_dryRun_tail]
  · simp only [List.append_assoc, lookupKV_optEntry_append]
    simp [lookupKV_append, hoptsNe, lookupKV_dryRun_tail]
  · simp only [List.append_assoc, lookupKV_optEntry_append]
    simp [lookupKV_append, hoptsNe, lookupKV_dryRun_tail]
  · simp only [List.append_assoc, lookupKV_optEntry_append]
    simp [lookupKV_append, hoptsNe, lookupKV_dryRun_tail]
  · simp only [List.append_assoc, lookupKV_optEntry_append]
    simp [lookupKV_append, hoptsNe, lookupKV_dryRun_tail]
  · simp only [List.append_assoc, lookupKV_optEntry_append]
    simp [lookupKV_append, hoptsNe, lookupKV_dryRun_tail]
  · simp only [List.append_assoc, lookupKV_optEntry_append]
    simp [lookupKV_append, hoptsNe, lookupKV_dryRun_tail]
  · simp only [List.append_assoc, lookupKV_optEntry_append]
    simp [lookupKV_append, hoptsNe, lookupKV_dryRun_tail]
  · simp only [List.append_assoc, lookupKV_optEntry_append, lookupKV_optEntry]
    simp
  · simp only [List.append_assoc, lookupKV_optEntry_append, lookupKV_optEntry]
    simp
  · simp only [List.append_assoc, lookupKV_optEntry_append, lookupKV_optEntry]
    simp
  · simp only [List.append_assoc, lookupKV_optEntry_append, lookupKV_optEntry]
    simp
  · simp only [List.append_assoc, lookupKV_optEntry_append]
    rcases hopt with h | ⟨om, h⟩ <;>
      simp [h, lookupKV_append, hoptsLook, lookupKV_dryRun_tail, lookupKV]
  · simp only [List.append_assoc, lookupKV_optEntry_append]
    simp [lookupKV_append, hoptsNe, lookupKV_dryRun_tail_self]
  · intro k hk
    simp only [List.mem_cons, List.not_mem_nil, or_false, not_or] at hk
    obtain ⟨h₁, h₂, h₃, h₄, h₅, h₆, h₇, h₈, h₉, h₀⟩ := hk
    simp only [List.append_assoc, lookupKV_optEntry_append]
    simp [lookupKV_append,
      show ¬("uid" = k) from fun hh => h₁ hh.symm,
      show ¬("subResource" = k) from fun hh => h₂ hh.symm,
      show ¬("name" = k) from fun hh => h₃ hh.symm,
      show ¬("namespace" = k) from fun hh => h₄ hh.symm,
      show ¬("operation" = k) from fun hh => h₅ hh.symm,
      show ¬("kind" = k) from fun hh => h₆ hh.symm,
      show ¬("resource" = k) from fun hh => h₇ hh.symm,
      show ¬("userInfo" = k) from fun hh => h₈ hh.symm,
      hoptsNe k h₉,
      lookupKV_dryRun_tail req.dryRun k (fun hh => h₀ hh.symm)]

theorem convertAdmissionRequest_field_characterization_witness :
    ((none : Option RawOptions) = none ∨
      ∃ om, (none : Option RawOptions) = some (.decodable om)) ∧
    (∃ m ui, convertAdmissionRequest
        (some ⟨"u-1", ⟨"apps", "v1", "Deployment"⟩, ⟨"apps", "v1", "deployments"⟩, "",
          "d", "default", "CREATE", ⟨"alice", "", ["dev"], []⟩, none, none⟩) = .ok m ∧
      lookupKV m "uid" = some (.str "u-1") ∧
      lookupKV m "namespace" = some (.str "default") ∧
      lookupKV m "userInfo" = some (.obj ui) ∧
      lookupKV ui "username" = some (.str "alice")) := by
  refine ⟨Or.inl rfl, ?_⟩
  obtain ⟨m, ui, hconv, h1, h2, h3, h4, h5, h6, h7, h8, h9, h10, h11, h12, h13, h14, h15⟩ :=
    convertAdmissionRequest_field_characterization
      ⟨"u-1", ⟨"apps", "v1", "Deployment"⟩, ⟨"apps", "v1", "deployments"⟩, "",
        "d", "default", "CREATE", ⟨"alice", "", ["dev"], []⟩, none, none⟩ (Or.inl rfl)
  exact ⟨m, ui, hconv, by simpa using h1, by simpa using h4,
    by simpa using h8, by simpa using h9⟩

/-! ### Test oracle (C4) -/

theorem lookupKV_eq_some_mem {α : Type} :
    ∀ (m : List (String × α)) (k : String) (v : α),
      lookupKV m k = some v → (k, v) ∈ m := by
  intro m
  induction m with
  | nil =>
      intro k v h
      simp [lookupKV] at h
  | cons hd tl ih =>
      intro k v h
      obtain ⟨k₁, v₁⟩ := hd
      by_cases hk : k₁ = k
      · subst hk
        simp [lookupKV] at h
        simp [h]
      · rw [lookupKV, if_neg hk] at h
        exact List.mem_cons_of_mem _ (ih k v h)

theorem mem_lookupKV_nodup {α : Type} :
    ∀ (m : List (String × α)), (m.map Prod.fst).Nodup →
      ∀ (k : String) (v : α), (k, v) ∈ m → lookupKV m k = some v := by
  intro m
  induction m with
  | nil =>
      intro _ k v h
      simp at h
  | cons hd tl ih =>
      intro hnd k v h
      obtain ⟨k₁, v₁⟩ := hd
      simp only [List.map_cons, List.nodup_cons] at hnd
      obtain ⟨hk₁, htl⟩ := hnd
      rcases List.mem_cons.mp h with h | h
      · obtain ⟨h₁, h₂⟩ := Prod.mk.injEq .. ▸ h
        subst h₁
        subst h₂
        simp [lookupKV]
      · have hkne : k₁ ≠ k := by
          intro hh
          subst hh
          exact hk₁ (List.mem_map_of_mem Prod.fst h)
        rw [lookupKV, if_neg hkne]
        exact ih htl k v h

theorem lookupKV_isSome_iff_mem {α : Type} :
    ∀ (m : List (String × α)) (k : String),
      (lookupKV m k).isSome = true ↔ k ∈ m.map Prod.fst := by
  intro m
  induction m with
  | nil =>
      intro k
      simp [lookupKV]
  | cons hd tl ih =>
      intro k
      obtain ⟨k₁, v₁⟩ := hd
      by_cases hk : k₁ = k
      · subst hk
        simp [lookupKV]
      · rw [lookupKV, if_neg hk]
        simp only [List.map_cons, List.mem_cons]
        rw [ih k]
        constructor
        · exact Or.inr
        · rintro (h | h)
          · exact absurd h.symm hk
          · exact h

theorem checkWarningsLoop_none_iff :
    ∀ (es as : List String) (i : Nat), es.length = as.length →
      (checkWarningsLoop i es as = none ↔ as = es) := by
  intro es
  induction es with
  | nil =>
      intro as i h
      cases as with
      | nil => simp [checkWarningsLoop]
      | cons x xs => simp at h
  | cons x xs ih =>
      intro as i h
      cases as with
      | nil => simp at h
      | cons y ys =>
          simp only [List.length_cons, Nat.add_right_cancel_iff] at h
          by_cases hxy : y = x
          · subst hxy
            rw [checkWarningsLoop, if_pos rfl]
            rw [ih ys (i + 1) h]
            simp
          · rw [checkWarningsLoop, if_neg hxy]
            constructor
            · intro hcon
              by_cases hd : getDiff x y ≠ "" <;> simp [hd] at hcon
            · intro hcon
              obtain ⟨h₁, _⟩ := List.cons.injEq .. ▸ hcon
              exact absurd h₁ hxy

theorem checkWarnings_none_iff (ew aw : List String) :
    checkWarnings ew aw = none ↔ specWarningsOK ew aw := by
  rw [specWarningsOK]
  by_cases hew : ew.length = 0
  · rw [checkWarnings, if_pos hew]
    simp [List.length_eq_zero.mp hew]
  · rw [checkWarnings, if_neg hew]
    by_cases haw : aw.length = 0
    · rw [if_pos haw]
      have : ew ≠ [] := fun hh => hew (by simp [hh])
      have haw' : aw = [] := List.length_eq_zero.mp haw
      simp [this, haw']
    · rw [if_neg haw]
      by_cases hlen : aw.length ≠ ew.length
      · rw [if_pos hlen]
        have hne : ew ≠ [] := fun hh => hew (by simp [hh])
        simp [hne]
        intro hcon
        rw [hcon] at hlen
        exact hlen rfl
      · rw [if_neg hlen]
        push_neg at hlen
        rw [checkWarningsLoop_none_iff ew aw 0 hlen.symm]
        have hne : ew ≠ [] := fun hh => hew (by simp [hh])
        simp [hne]

theorem mem_insertKV {α : Type} :
    ∀ (m : List (String × α)) (k : String) (v : α) (x : String × α),
      x ∈ insertKV m k v → x = (k, v) ∨ x ∈ m := by
  intro m
  induction m with
  | nil =>
      intro k v x h
      simp [insertKV] at h
      simp [h]
  | cons hd tl ih =>
      intro k v x h
      obtain ⟨k₁, v₁⟩ := hd
      by_cases hk : k₁ = k
      · subst hk
        rw [insertKV, if_pos rfl] at h
        rcases List.mem_cons.mp h with h | h
        · exact Or.inl h
        · exact Or.inr (List.mem_cons_of_mem _ h)
      · rw [insertKV, if_neg hk] at h
        rcases List.mem_cons.mp h with h | h
        · exact Or.inr (h ▸ List.mem_cons_self _ _)
        · rcases ih k v x h with h | h
          · exact Or.inl h
          · exact Or.inr (List.mem_cons_of_mem _ h)

theorem foldl_filter_mem (a : List (String × String)) (P : String → Prop) :
    ∀ (l acc : List (String × String)),
      (∀ kv ∈ l, P kv.1) → (∀ x ∈ acc, P x.1 ∧ lookupKV a x.1 = some x.2) →
      ∀ x ∈ l.foldl
        (fun acc kv =>
          match lookupKV a kv.1 with
          | some v => insertKV acc kv.1 v
          | none => acc) acc,
        P x.1 ∧ lookupKV a x.1 = some x.2 := by
  intro l
  induction l with
  | nil =>
      intro acc _ hacc x hx
      exact hacc x hx
  | cons kv rest ih =>
      intro acc hl hacc x hx
      simp only [List.foldl_cons] at hx
      refine ih _ (fun b hb => hl b (List.mem_cons_of_mem _ hb)) ?_ x hx
      intro y hy
      cases hla : lookupKV a kv.1 with
      | none =>
          rw [hla] at hy
          exact hacc y hy
      | some v =>
          rw [hla] at hy
          rcases mem_insertKV acc kv.1 v y hy with h | h
          · subst h
            exact ⟨hl kv (List.mem_cons_self _ _), hla⟩
          · exact hacc y h

theorem foldl_filter_lookup (a : List (String × String)) :
    ∀ (l acc : List (String × String)), (l.map Prod.fst).Nodup →
      ∀ k, lookupKV (l.foldl
          (fun acc kv =>
            match lookupKV a kv.1 with
            | some v => insertKV acc kv.1 v
            | none => acc) acc) k =
        if k ∈ l.map Prod.fst ∧ (lookupKV a k).isSome = true then lookupKV a k
        else lookupKV acc k := by
  intro l
  induction l with
  | nil =>
      intro acc _ k
      simp [lookupKV]
  | cons kv rest ih =>
      intro acc hnd k
      simp only [List.map_cons, List.nodup_cons] at hnd
      obtain ⟨hk₁, hrest⟩ := hnd
      simp only [List.foldl_cons]
      rw [ih _ hrest k]
      by_cases hmem : k ∈ rest.map Prod.fst
      · have hkk : ¬(kv.1 = k) := by
          intro hh
          exact hk₁ (hh ▸ hmem)
        by_cases hsome : (lookupKV a k).isSome = true
        · simp [hmem, hsome, List.mem_cons]
        · have hsame : lookupKV (match lookupKV a kv.1 with
              | some v => insertKV acc kv.1 v
              | none => acc) k = lookupKV acc k := by
            cases hla : lookupKV a kv.1 with
            | none => rfl
            | some v => exact lookupKV_insertKV_ne acc kv.1 k v hkk
          simp [hmem, hsome, hsame]
      · by_cases hkk : kv.1 = k
        · subst hkk
          cases hla : lookupKV a kv.1 with
          | none =>
              simp [hmem, hla, lookupKV]
          | some v =>
              simp [hmem, hla, lookupKV_insertKV_self, List.mem_cons]
        · have hsame : lookupKV (match lookupKV a kv.1 with
              | some v => insertKV acc kv.1 v
              | none => acc) k = lookupKV acc k := by
            cases hla : lookupKV a kv.1 with
            | none => rfl
            | some v => exact lookupKV_insertKV_ne acc kv.1 k v hkk
          simp [hsame, List.mem_cons, hmem, show ¬(k = kv.1) from fun hh => hkk hh.symm]

theorem strMapEq_filter_iff (e a : List (String × String))
    (hnd : (e.map Prod.fst).Nodup) :
    strMapEq e (filterToExpectedKeys e a) = true ↔
      ∀ k v, lookupKV e k = some v → lookupKV a k = some v := by
  rw [strMapEq, Bool.and_eq_true, List.all_eq_true, List.all_eq_true]
  constructor
  · intro h k v hkv
    have hmem := lookupKV_eq_some_mem e k v hkv
    have h₁ := h.1 (k, v) hmem
    rw [beq_iff_eq] at h₁
    rw [filterToExpectedKeys, foldl_filter_lookup a e [] hnd k] at h₁
    by_cases hc : k ∈ e.map Prod.fst ∧ (lookupKV a k).isSome = true
    · rw [if_pos hc] at h₁
      exact h₁
    · rw [if_neg hc] at h₁
      simp [lookupKV] at h₁
  · intro hP
    constructor
    · intro kv hkv
      rw [beq_iff_eq]
      have hlook : lookupKV e kv.1 = some kv.2 := mem_lookupKV_nodup e hnd kv.1 kv.2 hkv
      have ha := hP kv.1 kv.2 hlook
      rw [filterToExpectedKeys, foldl_filter_lookup a e [] hnd kv.1,
        if_pos ⟨List.mem_map_of_mem Prod.fst hkv, by simp [ha]⟩]
      exact ha
    · intro kv hkv
      rw [beq_iff_eq]
      have hmw := foldl_filter_mem a (fun k => (lookupKV e k).isSome = true) e []
        (fun b hb => by
          show (lookupKV e b.1).isSome = true
          rw [lookupKV_isSome_iff_mem]
          exact List.mem_map_of_mem Prod.fst hb)
        (by intro x hx; simp at hx) kv hkv
      obtain ⟨hsome, ha⟩ := hmw
      obtain ⟨w, hw⟩ := Option.isSome_iff_exists.mp hsome
      have haw := hP kv.1 w hw
      rw [ha] at haw
      injection haw with haw
      rw [hw, haw]

theorem checkAuditAnnotations_none_iff (e : TestExpectation) (a : TestOutcome)
    (hnd : (e.auditAnnotations.map Prod.fst).Nodup) :
    checkAuditAnnotations e a = none ↔
      specAuditOK e.auditAnnotations a.auditAnnotations := by
  rw [checkAuditAnnotations]
  by_cases hlen : e.auditAnnotations.length = 0
  · rw [if_pos hlen]
    simp [specAuditOK, List.length_eq_zero.mp hlen, lookupKV]
  · rw [if_neg hlen]
    by_cases heq : strMapEq e.auditAnnotations
        (filterToExpectedKeys e.auditAnnotations a.auditAnnotations) = true
    · simp only [heq, if_true]
      rw [strMapEq_filter_iff _ _ hnd] at heq
      exact iff_of_true trivial heq
    · simp only [Bool.not_eq_true] at heq
      simp only [heq, Bool.false_eq_true, if_false]
      rw [specAuditOK]
      constructor
      · intro hcon
        simp at hcon
      · intro hP
        exfalso
        rw [← strMapEq_filter_iff e.auditAnnotations a.auditAnnotations hnd] at hP
        rw [hP] at heq
        exact Bool.true_eq_false ▸ heq

theorem checkAuditAnnotations_some_passed (e : TestExpectation) (a : TestOutcome)
    (chk : TestResult) (h : checkAuditAnnotations e a = some chk) :
    chk.passed = false := by
  rw [checkAuditAnnotations] at h
  by_cases hlen : e.auditAnnotations.length = 0
  · rw [if_pos hlen] at h
    simp at h
  · rw [if_neg hlen] at h
    by_cases heq : strMapEq e.auditAnnotations
        (filterToExpectedKeys e.auditAnnotations a.auditAnnotations) = true
    · simp [heq] at h
    · simp only [Bool.not_eq_true] at heq
      simp only [heq, Bool.false_eq_true, if_false, Option.some.injEq] at h
      rw [← h]

theorem checkMutatedObject_none_iff (e : TestExpectation) (a : TestOutcome) :
    checkMutatedObject e a = none ↔ specObjectOK e.object a.object := by
  unfold checkMutatedObject specObjectOK
  cases e.object with
  | none => simp
  | some eo =>
      cases a.object with
      | none => simp
      | some ao =>
          by_cases hv : valueEq (.obj eo) (.obj ao) = true
          · simp [hv]
          · simp only [Bool.not_eq_true] at hv
            simp [hv]

theorem checkMutatedObject_some_passed (e : TestExpectation) (a : TestOutcome)
    (chk : TestResult) (h : checkMutatedObject e a = some chk) :
    chk.passed = false := by
  rw [checkMutatedObject] at h
  cases he : e.object with
  | none =>
      rw [he] at h
      simp at h
  | some eo =>
      rw [he] at h
      cases ha : a.object with
      | none =>
          rw [ha] at h
          simp only [Option.some.injEq] at h
          rw [← h]
      | some ao =>
          rw [ha] at h
          by_cases hv : valueEq (.obj eo) (.obj ao) = true
          · simp [hv] at h
          · simp only [Bool.not_eq_true] at hv
            simp only [hv, Bool.false_eq_true, if_false, Option.some.injEq] at h
            rw [← h]

theorem getDiff_ne_empty (e a : String) (h : ¬(e = a)) : ¬(getDiff e a = "") := by
  rw [getDiff, if_neg h]
  intro hcon
  have hlen := congrArg String.length hcon
  simp [String.length_append] at hlen
  exact absurd hlen.1.1.1.1 (by decide)

/-- **C4** — The test oracle applies its checks in the fixed order
allowed, auditAnnotations, warnings, message, expectedObject; the test
passes exactly when the actual allowed matches, every expected audit
annotation key is present in the actual annotations with the identical
value (extra actual keys ignored), non-empty expected warnings equal
the actual warnings in length, order and content, a non-empty expected
message equals the actual message exactly, and a provided expected
object deep-equals the actual object; and the first failing check in
that order produces the test's failure message. -/
theorem validateTestResult_check_order (e : TestExpectation) (a : TestOutcome)
    (hnd : (e.auditAnnotations.map Prod.fst).Nodup) :
    ((validateTestResult e a).passed = true ↔
      (a.allowed = e.allowed ∧ specAuditOK e.auditAnnotations a.auditAnnotations ∧
        specWarningsOK e.warnings a.warnings ∧ specMessageOK e.message a.message ∧
        specObjectOK e.object a.object)) ∧
    (¬(a.allowed = e.allowed) →
      validateTestResult e a =
        { passed := false,
          message := "expected allowed=" ++ goBool e.allowed ++ ", got allowed=" ++
            goBool a.allowed }) ∧
    (a.allowed = e.allowed → ¬specAuditOK e.auditAnnotations a.auditAnnotations →
      ∃ chk, checkAuditAnnotations e a = some chk ∧ validateTestResult e a = chk ∧
        chk.passed = false) ∧
    (a.allowed = e.allowed → specAuditOK e.auditAnnotations a.auditAnnotations →
      ¬specWarningsOK e.warnings a.warnings →
      ∃ chk, checkWarnings e.warnings a.warnings = some chk ∧
        validateTestResult e a = { passed := false, message := chk.message }) ∧
    (a.allowed = e.allowed → specAuditOK e.auditAnnotations a.auditAnnotations →
      specWarningsOK e.warnings a.warnings → ¬specMessageOK e.message a.message →
      validateTestResult e a =
        { passed := false,
          message := "message does not match expected:\n" ++ getDiff e.message a.message }) ∧
    (a.allowed = e.allowed → specAuditOK e.auditAnnotations a.auditAnnotations →
      specWarningsOK e.warnings a.warnings → specMessageOK e.message a.message →
      ¬specObjectOK e.object a.object →
      ∃ chk, checkMutatedObject e a = some chk ∧ validateTestResult e a = chk ∧
        chk.passed = false) := by
  refine ⟨⟨?_, ?_⟩, ?_, ?_, ?_, ?_, ?_⟩
  · -- passed → all checks hold
    intro hp
    by_cases hall : a.allowed = e.allowed
    · have hcond : ¬(a.allowed ≠ e.allowed) := by simp [hall]
      rw [validateTestResult, if_neg hcond] at hp
      cases hca : checkAuditAnnotations e a with
      | some chk =>
          rw [hca] at hp
          simp only [] at hp
          rw [checkAuditAnnotations_some_passed e a chk hca] at hp
          simp at hp
      | none =>
          rw [hca] at hp
          have haud := (checkAuditAnnotations_none_iff e a hnd).mp hca
          cases hcw : checkWarnings e.warnings a.warnings with
          | some chk =>
              rw [hcw] at hp
              simp at hp
          | none =>
              rw [hcw] at hp
              have hwarn := (checkWarnings_none_iff e.warnings a.warnings).mp hcw
              by_cases hmsg : e.message ≠ "" ∧ a.message ≠ e.message
              · rw [if_pos hmsg] at hp
                by_cases hd : getDiff e.message a.message ≠ "" <;> simp [hd] at hp
              · rw [if_neg hmsg] at hp
                have hmsgOK : specMessageOK e.message a.message := by
                  rw [specMessageOK]
                  by_cases he : e.message = ""
                  · exact Or.inl he
                  · exact Or.inr (not_not.mp (fun hh => hmsg ⟨he, hh⟩))
                cases hcm : checkMutatedObject e a with
                | some chk =>
                    rw [hcm] at hp
                    simp only [] at hp
                    rw [checkMutatedObject_some_passed e a chk hcm] at hp
                    simp at hp
                | none =>
                    exact ⟨hall, haud, hwarn, hmsgOK,
                      (checkMutatedObject_none_iff e a).mp hcm⟩
    · rw [validateTestResult, if_pos hall] at hp
      simp at hp
  · -- all checks hold → passed
    rintro ⟨hall, haud, hwarn, hmsg, hobj⟩
    have hcond : ¬(a.allowed ≠ e.allowed) := by simp [hall]
    rw [validateTestResult, if_neg hcond,
      (checkAuditAnnotations_none_iff e a hnd).mpr haud]
    simp only []
    rw [(checkWarnings_none_iff e.warnings a.warnings).mpr hwarn]
    simp only []
    have hmno : ¬(e.message ≠ "" ∧ a.message ≠ e.message) := by
      rcases hmsg with h | h
      · exact fun hh => hh.1 h
      · exact fun hh => hh.2 h
    rw [if_neg hmno, (checkMutatedObject_none_iff e a).mpr hobj]
  · -- first check: allowed mismatch
    intro hall
    rw [validateTestResult, if_pos hall]
  · -- second check: audit annotations
    intro hall haud
    cases hca : checkAuditAnnotations e a with
    | none => exact absurd ((checkAuditAnnotations_none_iff e a hnd).mp hca) haud
    | some chk =>
        refine ⟨chk, rfl, ?_, checkAuditAnnotations_some_passed e a chk hca⟩
        have hcond : ¬(a.allowed ≠ e.allowed) := by simp [hall]
        rw [validateTestResult, if_neg hcond, hca]
  · -- third check: warnings
    intro hall haud hwarn
    cases hcw : checkWarnings e.warnings a.warnings with
    | none => exact absurd ((checkWarnings_none_iff e.warnings a.warnings).mp hcw) hwarn
    | some chk =>
        refine ⟨chk, rfl, ?_⟩
        have hcond : ¬(a.allowed ≠ e.allowed) := by simp [hall]
        rw [validateTestResult, if_neg hcond,
          (checkAuditAnnotations_none_iff e a hnd).mpr haud]
        simp only []
        rw [hcw]
  · -- fourth check: message
    intro hall haud hwarn hmsg
    rw [specMessageOK, not_or] at hmsg
    obtain ⟨hme, hma⟩ := hmsg
    have hcond : ¬(a.allowed ≠ e.allowed) := by simp [hall]
    rw [validateTestResult, if_neg hcond,
      (checkAuditAnnotations_none_iff e a hnd).mpr haud]
    simp only []
    rw [(checkWarnings_none_iff e.warnings a.warnings).mpr hwarn]
    simp only []
    rw [if_pos ⟨hme, hma⟩]
    have hd : ¬(getDiff e.message a.message = "") :=
      getDiff_ne_empty e.message a.message (fun hh => hma hh.symm)
    rw [if_pos hd]
  · -- fifth check: expected object
    intro hall haud hwarn hmsg hobj
    cases hcm : checkMutatedObject e a with
    | none => exact absurd ((checkMutatedObject_none_iff e a).mp hcm) hobj
    | some chk =>
        refine ⟨chk, rfl, ?_, checkMutatedObject_some_passed e a chk hcm⟩
        have hcond : ¬(a.allowed ≠ e.allowed) := by simp [hall]
        rw [validateTestResult, if_neg hcond,
          (checkAuditAnnotations_none_iff e a hnd).mpr haud]
        simp only []
        rw [(checkWarnings_none_iff e.warnings a.warnings).mpr hwarn]
        simp only []
        have hmno : ¬(e.message ≠ "" ∧ a.message ≠ e.message) := by
          rcases hmsg with h | h
          · exact fun hh => hh.1 h
          · exact fun hh => hh.2 h
        rw [if_neg hmno, hcm]

theorem validateTestResult_check_order_witness :
    ((([("k", "v")] : List (String × String)).map Prod.fst).Nodup) ∧
    (validateTestResult
      { allowed := false, message := "", object := none, warnings := [],
        auditAnnotations := [("k", "v")] }
      { allowed := false, message := "denied", object := none, warnings := [],
        auditAnnotations := [("k", "v"), ("x", "y")] }).passed = true := by
  refine ⟨by decide, ?_⟩
  refine (validateTestResult_check_order _ _ (by decide)).1.mpr
    ⟨rfl, ?_, Or.inl rfl, Or.inl rfl, trivial⟩
  intro k v h
  by_cases hk : "k" = k
  · subst hk
    rw [lookupKV, if_pos rfl] at h
    injection h with h
    subst h
    rfl
  · rw [lookupKV, if_neg hk, lookupKV] at h
    exact absurd h (by simp)

end Kat
